import Mathlib

/-!
# Live scoring backend: embedding and verified properties

A shallow embedding of the request handlers of `index.js` and of the schema of
`database.js`.  Handlers are pure functions on an explicit state made of the
process-wide session variables and the SQLite database.

Conventions of the embedding:

* JavaScript values reaching the handlers as scalars are `undefined`, `null`,
  booleans, numbers and strings.  A number is an integer or a double that is
  not an integer; integers too large for a double to hold exactly, and sums
  that overflow SQLite's 64-bit integers, are outside the embedding.
* What SQLite and JavaScript do with text and floating point is not fixed
  here: which texts a numeric column converts to which number, how a
  non-integer is written as text, how non-integers are added and divided.
  These are the fields of an `Engine`, and every theorem holds for every
  engine.  Integer arithmetic, and the division and two-decimal rendering of
  integer totals, are defined here.
* Route parameters (`:setId`, `:playerId`) are strings; the router never
  matches an empty one.
* A statement handed to `db.run` without a callback has no error continuation
  in the handler: if SQLite rejects it, nothing is written by that statement
  and the next queued statement runs.  SQLite aborts only the failing statement
  (conflict resolution ABORT), never the enclosing transaction.
* Foreign keys are enforced (`PRAGMA foreign_keys = ON` in `database.js`), so
  a foreign key column holds NULL or the integer key of a parent row.
* Whether `COMMIT;` succeeds is decided by SQLite; it is an input of the
  handlers that issue it.
* Requests are handled one after another.
-/

namespace ScoringSystem

/-! ## Numbers -/

/-- A double that is not an integer: `mantissa / 2 ^ shift` in lowest terms. -/
structure Fraction where
  mantissa : Int
  shift : Nat
  odd : mantissa % 2 = 1
  positive : 0 < shift
  deriving DecidableEq

/-- A JavaScript number, also a numeric value of SQLite: INTEGER or REAL. -/
inductive Number
  | integer (n : Int)
  | fraction (x : Fraction)
  deriving DecidableEq

/-- Numerator of the number over the denominator `2 ^ shift`. -/
def Number.numerator : Number → Int
  | .integer n => n
  | .fraction x => x.mantissa

/-- Binary exponent of the denominator. -/
def Number.shift : Number → Nat
  | .integer _ => 0
  | .fraction x => x.shift

/-- Numeric order: the numerators are compared over a common denominator. -/
def Number.le (a b : Number) : Prop :=
  a.numerator * 2 ^ b.shift ≤ b.numerator * 2 ^ a.shift

instance : LE Number := ⟨Number.le⟩

instance (a b : Number) : Decidable (a ≤ b) :=
  inferInstanceAs (Decidable (a.numerator * 2 ^ b.shift ≤ b.numerator * 2 ^ a.shift))

/-! ## JavaScript and SQLite values -/

/-- The JavaScript values of the embedding. -/
inductive JsValue
  | undefined
  | null
  | boolean (b : Bool)
  | number (n : Int)
  | fraction (x : Fraction)
  | string (s : String)
  deriving DecidableEq

/-- Values as SQLite stores and compares them. -/
inductive SqlValue
  | null
  | integer (n : Int)
  | real (x : Fraction)
  | text (s : String)
  deriving DecidableEq

/-- The text and floating point behaviour of SQLite and of JavaScript that the
handlers rely on. -/
structure Engine where
  /-- Numeric column affinity on text: the number the text is converted to, or
  `none` when the text is kept as text. -/
  numericText : String → Option Number
  /-- TEXT column affinity on a REAL: the text it is stored as. -/
  realText : Fraction → String
  /-- The result of `Number.prototype.toString` on a non-integer. -/
  fractionString : Fraction → String
  /-- The result of `SUM` over non-NULL values that are not all integers. -/
  sumReal : List SqlValue → Number
  /-- The result of `(x / n).toFixed(2)` for a non-integer `x`. -/
  fractionFixed2 : Fraction → Nat → String

variable (E : Engine)

/-- JavaScript truthiness: `!v` is false exactly for truthy `v`. -/
def JsValue.truthy : JsValue → Bool
  | .undefined => false
  | .null => false
  | .boolean b => b
  | .number n => decide (n ≠ 0)
  | .fraction _ => true
  | .string s => decide (s ≠ "")

/-- The result of `v.toString()`; the handlers only call it on truthy values. -/
def JsValue.toStr : JsValue → String
  | .undefined => "undefined"
  | .null => "null"
  | .boolean true => "true"
  | .boolean false => "false"
  | .number n => toString n
  | .fraction x => E.fractionString x
  | .string s => s

/-- The operator `a || b` on values. -/
def JsValue.orElse (a b : JsValue) : JsValue := if a.truthy then a else b

/-- Binding of a JavaScript value to a statement parameter by the driver:
`undefined` leaves the parameter unbound, which SQLite reads as NULL. -/
def bindParam : JsValue → SqlValue
  | .undefined => .null
  | .null => .null
  | .boolean b => .integer (if b then 1 else 0)
  | .number n => .integer n
  | .fraction x => .real x
  | .string s => .text s

/-- A number as a value of SQLite. -/
def Number.toSql : Number → SqlValue
  | .integer n => .integer n
  | .fraction x => .real x

/-- INTEGER (numeric) column affinity: numeric text becomes its number. -/
def SqlValue.integerAffinity : SqlValue → SqlValue
  | .text s =>
    match E.numericText s with
    | some n => n.toSql
    | none => .text s
  | v => v

/-- TEXT column affinity: numbers become text. -/
def SqlValue.textAffinity : SqlValue → SqlValue
  | .integer n => .text (toString n)
  | .real x => .text (E.realText x)
  | v => v

/-- The comparison `column = ?` for a column holding NULL or integers: the
numeric column affinity is applied to the parameter, and NULL equals nothing. -/
def eqInteger (cell : Option Int) (param : SqlValue) : Bool :=
  match cell, param.integerAffinity E with
  | some a, .integer b => decide (a = b)
  | _, _ => false

/-- The comparison `column = ?` for a TEXT column. -/
def eqText (cell : Option String) (param : SqlValue) : Bool :=
  match cell, param.textAffinity E with
  | some a, .text b => decide (a = b)
  | _, _ => false

/-! ## Schema (`database.js`, `createTables`) -/

/-- Row of `players`. -/
structure Player where
  id : Int
  name : String
  info : Option String
  deriving DecidableEq

/-- Row of `scoring_sets`. -/
structure ScoringSet where
  id : Int
  name : String
  deriving DecidableEq

/-- Row of `scoring_items`. -/
structure ScoringItem where
  id : Int
  name : String
  description : Option String
  max_score : SqlValue
  set_id : Int
  deriving DecidableEq

/-- Row of `scores`.  `player_id` and `item_id` are nullable foreign keys into
integer primary keys, so they hold NULL or an integer; `score` is declared
`INTEGER NOT NULL` and holds whatever value the numeric affinity left, an
integer, a REAL or text; `judge_id` is nullable TEXT. -/
structure Score where
  id : Int
  player_id : Option Int
  item_id : Option Int
  score : SqlValue
  judge_id : Option String
  deriving DecidableEq

/-- The four tables and the AUTOINCREMENT counters (`sqlite_sequence`) of the
tables the handlers below insert into. -/
structure Store where
  players : List Player
  scoring_sets : List ScoringSet
  scoring_items : List ScoringItem
  scores : List Score
  sets_seq : Int
  items_seq : Int
  scores_seq : Int
  deriving DecidableEq

/-- The database connection: current contents and, while a transaction is
open, the contents at its BEGIN. -/
structure Db where
  store : Store
  journal : Option Store
  deriving DecidableEq

/-- AUTOINCREMENT: one more than the largest rowid ever used in the table. -/
def nextRowid (seq : Int) (ids : List Int) : Int := ids.foldr max seq + 1

/-- Statement `BEGIN TRANSACTION;` (rejected, and ignored, inside an open transaction). -/
def Db.begin (d : Db) : Db :=
  match d.journal with
  | none => { d with journal := some d.store }
  | some _ => d

/-- Statement `COMMIT;` with the outcome reported by SQLite. -/
def Db.commit (d : Db) (succeeds : Bool) : Db :=
  if succeeds then { d with journal := none } else d

/-- Statement `ROLLBACK;`. -/
def Db.rollback (d : Db) : Db :=
  match d.journal with
  | some s => { store := s, journal := none }
  | none => d

/-- The rows selected by `WHERE player_id = ? AND judge_id = ?`. -/
def sheetOf (playerId judgeId : JsValue) (r : Score) : Bool :=
  eqInteger E r.player_id (bindParam playerId) && eqText E r.judge_id (bindParam judgeId)

/-- Statement `DELETE FROM scores WHERE player_id = ? AND judge_id = ?` with
the parameters `[playerId, judgeId]`. -/
def deleteScores (s : Store) (playerId judgeId : JsValue) : Store :=
  { s with scores := s.scores.filter (fun r => !sheetOf E playerId judgeId r) }

/-- A value stored into a nullable INTEGER column that references the integer
primary key `ids`: NULL passes, an integer must be a referenced key, and a
REAL or a text matches no key. `none` is the constraint failure. -/
def foreignKeyCell (ids : List Int) (v : SqlValue) : Option (Option Int) :=
  match v.integerAffinity E with
  | .null => some none
  | .integer n => if n ∈ ids then some (some n) else none
  | .real _ => none
  | .text _ => none

/-- The value read back from a nullable INTEGER cell. -/
def SqlValue.ofCell : Option Int → SqlValue
  | none => .null
  | some n => .integer n

/-- A value stored into a TEXT column. -/
def textCell (v : SqlValue) : Option String :=
  match v.textAffinity E with
  | .text s => some s
  | _ => none

/-- A value stored into a `NOT NULL` column of INTEGER affinity; `none` is the
constraint failure. -/
def notNullCell (v : SqlValue) : Option SqlValue :=
  match v.integerAffinity E with
  | .null => none
  | w => some w

/-- The cells SQLite stores for `INSERT INTO scores (player_id, item_id, score,
judge_id) VALUES (?, ?, ?, ?)`; `none` when it rejects the row: `score` is
NULL, or a foreign key has no parent row. -/
def scoreCells (s : Store) (playerId itemId score judgeId : SqlValue) :
    Option (Option Int × Option Int × SqlValue × Option String) :=
  match foreignKeyCell E (s.players.map (·.id)) playerId,
        foreignKeyCell E (s.scoring_items.map (·.id)) itemId, notNullCell E score with
  | some p, some i, some v => some (p, i, v, textCell E judgeId)
  | _, _, _ => none

/-- The table contents after an accepted row is appended under a fresh rowid. -/
def Store.appendScore (s : Store)
    (cells : Option Int × Option Int × SqlValue × Option String) : Store :=
  let id := nextRowid s.scores_seq (s.scores.map (·.id))
  { s with
    scores := s.scores ++ [{ id := id, player_id := cells.1, item_id := cells.2.1,
                             score := cells.2.2.1, judge_id := cells.2.2.2 }],
    scores_seq := id }

/-- Statement `INSERT INTO scores (player_id, item_id, score, judge_id) VALUES (?, ?, ?, ?)`. -/
def insertScore (s : Store) (playerId itemId score judgeId : SqlValue) : Option Store :=
  match scoreCells E s playerId itemId score judgeId with
  | some cells => some (s.appendScore cells)
  | none => none

/-- Runs a statement inside the connection, dropping its error if it has one. -/
def Db.runUnchecked (d : Db) (stmt : Store → Option Store) : Db :=
  match stmt d.store with
  | some s => { d with store := s }
  | none => d

/-! ## Live control (`index.js`, lines 11-12 and 347-388) -/

/-- A global variable that is only ever assigned: it has no binding until the
first assignment, and reading it before that throws `ReferenceError`. -/
inductive Global
  | undeclared
  | bound (v : String)
  deriving DecidableEq

/-- The process-wide session variables.  `currentScoringPlayerId` is declared
with `let ... = null`; `activeScoringSetId` is declared nowhere and comes into
being at its first assignment in the set-active handler. -/
structure Session where
  currentScoringPlayerId : Option String
  activeScoringSetId : Global
  deriving DecidableEq

/-- Session at process start. -/
def Session.atStart : Session :=
  { currentScoringPlayerId := none, activeScoringSetId := .undeclared }

/-- Whole state of the process. -/
structure State where
  session : Session
  db : Db
  deriving DecidableEq

/-- What a handler answers. -/
inductive Response
  | ok
  | created
  | badRequest
  | forbidden
  | notFound
  | serverError
  | current (player : Option Player) (scoringItems : List ScoringItem)
  | referenceError
  deriving DecidableEq

/-- Handler of `POST /api/live/set-active/:setId`. -/
def activateRubricSet (s : Session) (setId : String) : Response × Session :=
  (.ok, { s with activeScoringSetId := .bound setId })

/-- Handler of `POST /api/live/start/:playerId`. -/
def startScoring (s : Session) (playerId : String) : Response × Session :=
  match s.activeScoringSetId with
  | .undeclared => (.referenceError, s)
  | .bound a =>
    if a = "" then (.badRequest, s)
    else (.ok, { s with currentScoringPlayerId := some playerId })

/-- Handler of `POST /api/live/stop`. -/
def stopScoring (s : Session) : Response × Session :=
  (.ok, { s with currentScoringPlayerId := none })

/-- Handler of `GET /api/live/current`. -/
def getCurrent (s : Session) (store : Store) : Response :=
  match s.currentScoringPlayerId with
  | none => .current none []
  | some p =>
    if p = "" then .current none []
    else
      match s.activeScoringSetId with
      | .undeclared => .referenceError
      | .bound a =>
        if a = "" then .current none []
        else
          match store.players.find? (fun pl => eqInteger E (some pl.id) (.text p)) with
          | none => .notFound
          | some pl =>
            .current (some pl)
              (store.scoring_items.filter (fun it => eqInteger E (some it.set_id) (.text a)))

/-! ## Score submission (`index.js`, lines 390-434) -/

/-- One element of `scores` in the request body. -/
structure ScoreItem where
  itemId : JsValue
  score : JsValue
  deriving DecidableEq

/-- Body of `POST /api/scores`; `scores` is `none` when it is missing or not an array. -/
structure ScoresBody where
  playerId : JsValue
  scores : Option (List ScoreItem)
  judgeId : JsValue
  deriving DecidableEq

/-- The cells stored for one element of `scores`, if its insert is accepted. -/
def itemCells (s : Store) (playerId judgeId : JsValue) (item : ScoreItem) :
    Option (Option Int × Option Int × SqlValue × Option String) :=
  scoreCells E s (bindParam playerId) (bindParam item.itemId) (bindParam item.score)
    (bindParam judgeId)

/-- The statement run for one element of `scores`, with the parameters
`[playerId, item.itemId, item.score, judgeId]`. -/
def insertItem (playerId judgeId : JsValue) (item : ScoreItem) (s : Store) : Option Store :=
  insertScore E s (bindParam playerId) (bindParam item.itemId) (bindParam item.score)
    (bindParam judgeId)

/-- The cells of a stored row, without its rowid. -/
def Score.cells (r : Score) : Option Int × Option Int × SqlValue × Option String :=
  (r.player_id, r.item_id, r.score, r.judge_id)

/-- The inserts of one submission on the table contents, rejected ones skipped. -/
def insertAll (playerId judgeId : JsValue) : List ScoreItem → Store → Store
  | [], s => s
  | item :: rest, s =>
    insertAll playerId judgeId rest ((insertItem E playerId judgeId item s).getD s)

/-- The serialized statements between BEGIN and COMMIT. -/
def replaceScores (d : Db) (playerId judgeId : JsValue) (items : List ScoreItem) : Db :=
  let d1 := d.begin
  let d2 := d1.runUnchecked (fun s => some (deleteScores E s playerId judgeId))
  items.foldl (fun acc item => acc.runUnchecked (insertItem E playerId judgeId item)) d2

/-- Handler of `POST /api/scores`; `commitSucceeds` is the outcome SQLite reports for `COMMIT;`. -/
def submitScores (st : State) (body : ScoresBody) (commitSucceeds : Bool) : Response × State :=
  match body.scores with
  | none => (.badRequest, st)
  | some items =>
    if !body.playerId.truthy || items.length = 0 || !body.judgeId.truthy then
      (.badRequest, st)
    else if some (body.playerId.toStr E) ≠ st.session.currentScoringPlayerId then
      (.forbidden, st)
    else
      let d := replaceScores E st.db body.playerId body.judgeId items
      if commitSucceeds then (.created, { st with db := d.commit true })
      else (.serverError, { st with db := (d.commit false).rollback })

/-! ## Ranking (`index.js`, lines 442-463) -/

/-- Clause `FROM players p LEFT JOIN scores s ON p.id = s.player_id`: every player
paired with each of its score rows, or with NULL when it has none. -/
def leftJoinScores (players : List Player) (scores : List Score) :
    List (Player × Option Score) :=
  players.flatMap (fun p =>
    match scores.filter (fun s => decide (s.player_id = some p.id)) with
    | [] => [(p, none)]
    | ms => ms.map (fun s => (p, some s)))

/-- Row produced by the SQL query of `/api/results`. -/
structure RankRow where
  id : Int
  name : String
  info : Option String
  judge_count : Nat
  total_score : Number
  deriving DecidableEq

/-- Aggregate `COUNT(DISTINCT s.judge_id)` over one group; NULLs are not counted. -/
def countDistinctJudges (g : List (Option Score)) : Nat :=
  ((g.filterMap id).filterMap (·.judge_id)).dedup.length

/-- The integer held by a value, if it is one. -/
def SqlValue.asInteger : SqlValue → Option Int
  | .integer n => some n
  | _ => none

/-- Aggregate `SUM`: NULL inputs are skipped; without any other input the
result is NULL (`none`); integers are added exactly; as soon as one input is a
REAL or a text the sum is a floating point one. -/
def sqlSum (values : List SqlValue) : Option Number :=
  let present := values.filter (fun v => decide (v ≠ .null))
  if present = [] then none
  else if present.all (fun v => v.asInteger.isSome) then
    some (.integer (present.filterMap SqlValue.asInteger).sum)
  else some (E.sumReal present)

/-- Aggregate `IFNULL(SUM(s.score), 0)` over one group. -/
def sumScores (g : List (Option Score)) : Number :=
  (sqlSum E ((g.filterMap id).map (·.score))).getD (.integer 0)

/-- The aggregate row of the group of `p` (`GROUP BY p.id, p.name, p.info`). -/
def groupRow (joined : List (Player × Option Score)) (p : Player) : RankRow :=
  let g := (joined.filter (fun r => decide (r.1 = p))).map (·.2)
  { id := p.id, name := p.name, info := p.info,
    judge_count := countDistinctJudges g, total_score := sumScores E g }

/-- The grouped rows before `ORDER BY`. -/
def groupedRows (s : Store) : List RankRow :=
  let joined := leftJoinScores s.players s.scores
  ((joined.map (·.1)).dedup).map (groupRow E joined)

/-- The rows of the query: grouped, then `ORDER BY total_score DESC`.  SQL leaves
the order of equal totals open; a stable sort fixes one such order. -/
def rankRows (s : Store) : List RankRow :=
  (groupedRows E s).insertionSort (fun a b => a.total_score ≥ b.total_score)

/-- Least shift `k`, searched upwards from the given one, with
`2^52 * b ≤ a * 2^k`: it places the quotient `a / b` in the binade `[2^52, 2^53)`. -/
def quotientShift (a b : Nat) : Nat → Nat → Nat
  | 0, k => k
  | fuel + 1, k => if 2 ^ 52 * b ≤ a * 2 ^ k then k else quotientShift a b fuel (k + 1)

/-- Nearest integer to `n / d`, ties to even. -/
def roundHalfEven (n d : Nat) : Nat :=
  let q := n / d
  let r := n % d
  if 2 * r < d then q
  else if d < 2 * r then q + 1
  else if q % 2 = 0 then q else q + 1

/-- The IEEE-754 double `a / b` for integers `0 < a, b < 2^53`, as a pair
`(m, k)` standing for `m / 2^k`: the quotient rounded to 53 significant bits. -/
def divDouble (a b : Nat) : Nat × Nat :=
  let k := quotientShift a b 105 0
  (roundHalfEven (a * 2 ^ k) b, k)

/-- The integer `n` of `Number.prototype.toFixed(2)` for the double `m / 2^k`:
`n / 100` is as close to it as possible, the larger `n` on a tie. -/
def fixedHundredths (x : Nat × Nat) : Nat := (200 * x.1 + 2 ^ x.2) / 2 ^ (x.2 + 1)

/-- The digits `toFixed(2)` writes for `n` hundredths: the decimal digits of
the integer part, a point, and the last two digits of `n`. -/
def hundredthsText (n : Nat) : String :=
  String.mk (Nat.toDigits 10 (n / 100) ++
    ['.', Nat.digitChar (n / 10 % 10), Nat.digitChar (n % 10)])

/-- Expression `(total_score / judge_count).toFixed(2)` for an integer total. -/
def toFixed2 (total : Int) (count : Nat) : String :=
  (if total < 0 then "-" else "")
    ++ hundredthsText (fixedHundredths (divDouble total.natAbs count))

/-- Expression `(total_score / judge_count).toFixed(2)`. -/
def averageText (total : Number) (count : Nat) : String :=
  match total with
  | .integer t => toFixed2 t count
  | .fraction x => E.fractionFixed2 x count

/-- Element of `data` in the answer of `/api/results`. -/
structure ResultRecord where
  id : Int
  name : String
  info : Option String
  judge_count : Nat
  total_score : Number
  final_average_score : JsValue
  deriving DecidableEq

/-- The `rows.map` callback of `/api/results`. -/
def withAverage (player : RankRow) : ResultRecord :=
  { id := player.id, name := player.name, info := player.info,
    judge_count := player.judge_count, total_score := player.total_score,
    final_average_score :=
      if player.judge_count > 0 then
        .string (averageText E player.total_score player.judge_count)
      else .number 0 }

/-- Handler of `GET /api/results`. -/
def computeResults (s : Store) : List ResultRecord := (rankRows E s).map (withAverage E)

/-! ## Rubric import (`index.js`, lines 69-154) -/

/-- One parsed spreadsheet row. -/
structure ImportRow where
  setName : JsValue
  itemName : JsValue
  description : JsValue
  maxScore : JsValue
  deriving DecidableEq

/-- Query `SELECT id FROM scoring_sets WHERE name = ?` (first row, if any). -/
def selectSetId (s : Store) (name : SqlValue) : Option Int :=
  (s.scoring_sets.find? (fun r => eqText E (some r.name) name)).map (·.id)

/-- Statement `INSERT INTO scoring_sets (name) VALUES (?)`, giving the new contents and
`lastID`; `none` when `name` is NULL or already used (`NOT NULL UNIQUE`). -/
def insertSet (s : Store) (name : SqlValue) : Option (Store × Int) :=
  match textCell E name with
  | none => none
  | some n =>
    if n ∈ s.scoring_sets.map (·.name) then none
    else
      let id := nextRowid s.sets_seq (s.scoring_sets.map (·.id))
      some ({ s with scoring_sets := s.scoring_sets ++ [{ id := id, name := n }],
                     sets_seq := id }, id)

/-- Statement `INSERT INTO scoring_items (name, description, max_score, set_id) VALUES (?, ?, ?, ?)`;
`none` when `name` is NULL or `set_id` is not the id of a set. -/
def insertScoringItem (s : Store) (name description maxScore setId : SqlValue) :
    Option Store :=
  match textCell E name, setId.integerAffinity E with
  | some n, .integer k =>
    if k ∈ s.scoring_sets.map (·.id) then
      let id := nextRowid s.items_seq (s.scoring_items.map (·.id))
      some { s with
        scoring_items := s.scoring_items ++
          [{ id := id, name := n, description := textCell E description,
             max_score := maxScore.integerAffinity E, set_id := k }],
        items_seq := id }
    else none
  | _, _ => none

/-- The `groupCache` map of one import call. -/
abbrev GroupCache := List (JsValue × Int)

/-- Function `getOrCreateSetId(name)`: the cached id, else the id found by name, else
the id of a newly inserted set; `none` when the promise is rejected. -/
def getOrCreateSetId (cache : GroupCache) (s : Store) (name : JsValue) :
    Option (Int × GroupCache × Store) :=
  match cache.lookup name with
  | some id => some (id, cache, s)
  | none =>
    match selectSetId E s (bindParam name) with
    | some id => some (id, (name, id) :: cache, s)
    | none =>
      match insertSet E s (bindParam name) with
      | none => none
      | some (s1, newId) => some (newId, (name, newId) :: cache, s1)

/-- The test `row.setName && row.itemName && row.maxScore`. -/
def ImportRow.complete (row : ImportRow) : Bool :=
  row.setName.truthy && row.itemName.truthy && row.maxScore.truthy

/-- Body of the row loop; `none` when an awaited promise is rejected. -/
def importRow (acc : GroupCache × Store) (row : ImportRow) : Option (GroupCache × Store) :=
  if row.complete then
    match getOrCreateSetId E acc.1 acc.2 row.setName with
    | none => none
    | some (setId, cache, s1) =>
      match insertScoringItem E s1 (bindParam row.itemName)
          (bindParam (row.description.orElse (.string ""))) (bindParam row.maxScore)
          (.integer setId) with
      | none => none
      | some s2 => some (cache, s2)
  else some acc

/-- The row loop, stopping at the first rejection. -/
def importRows : GroupCache × Store → List ImportRow → Option (GroupCache × Store)
  | acc, [] => some acc
  | acc, row :: rows =>
    match importRow E acc row with
    | none => none
    | some acc1 => importRows acc1 rows

/-- Handler of `POST /api/scoring-sets/import` on the parsed rows. -/
def importRubricSets (d : Db) (rows : List ImportRow) (commitSucceeds : Bool) :
    Response × Db :=
  let d1 := d.begin
  match importRows E ([], d1.store) rows with
  | some (_, s) => (.created, ({ d1 with store := s }).commit commitSucceeds)
  | none => (.serverError, d1.rollback)

/-! ## Call sequences -/

/-- The operations of the live session. -/
inductive Call
  | activateRubricSet (setId : String)
  | startScoring (playerId : String)
  | stopScoring
  | getCurrent
  | submitScores (body : ScoresBody) (commitSucceeds : Bool)
  deriving DecidableEq

/-- Route parameters are never empty: the router does not match an empty segment. -/
def Call.routed : Call → Prop
  | .activateRubricSet setId => setId ≠ ""
  | .startScoring playerId => playerId ≠ ""
  | _ => True

instance (c : Call) : Decidable c.routed := by
  cases c <;> unfold Call.routed <;> infer_instance

/-- State after one call. -/
def step (st : State) : Call → State
  | .activateRubricSet setId => { st with session := (activateRubricSet st.session setId).2 }
  | .startScoring playerId => { st with session := (startScoring st.session playerId).2 }
  | .stopScoring => { st with session := (stopScoring st.session).2 }
  | .getCurrent => st
  | .submitScores body commitSucceeds => (submitScores E st body commitSucceeds).2

/-- State after a sequence of calls. -/
def run (st : State) (calls : List Call) : State := calls.foldl (step E) st

/-! ## The contract's reading of submitted values

These definitions follow the words of the contract and are written without the
statements of the handlers; the theorems compare both sides. -/

/-- The value a submitted value stands for in a numeric column: a number is
itself, a boolean is 1 or 0, a text is the number it spells, if any. -/
def storedNumber : JsValue → SqlValue
  | .undefined => .null
  | .null => .null
  | .boolean true => .integer 1
  | .boolean false => .integer 0
  | .number n => .integer n
  | .fraction x => .real x
  | .string s =>
    match E.numericText s with
    | some (.integer n) => .integer n
    | some (.fraction x) => .real x
    | none => .text s

/-- The text a submitted value stands for in a text column. -/
def storedText : JsValue → Option String
  | .undefined => none
  | .null => none
  | .boolean true => some "1"
  | .boolean false => some "0"
  | .number n => some (toString n)
  | .fraction x => some (E.realText x)
  | .string s => some s

/-- The row is one of contestant `c` and judge `j`. -/
def belongsTo (c j : JsValue) (r : Score) : Prop :=
  SqlValue.ofCell r.player_id = storedNumber E c ∧ r.judge_id = storedText E j

instance (c j : JsValue) (r : Score) : Decidable (belongsTo E c j r) := by
  unfold belongsTo; infer_instance

/-- The row carries what element `b` of a sheet of contestant `c` and judge `j`
says: its rubric item and its value. -/
def carries (c j : JsValue) (b : ScoreItem) (r : Score) : Prop :=
  belongsTo E c j r ∧ SqlValue.ofCell r.item_id = storedNumber E b.itemId ∧
    r.score = storedNumber E b.score

/-- A submission whose items name pairwise different rubric items. -/
def Call.distinctItems : Call → Prop
  | .submitScores body _ =>
    ((body.scores.getD []).map (fun i => storedNumber E i.itemId)).Nodup
  | _ => True

instance (c : Call) : Decidable (c.distinctItems E) := by
  cases c <;> unfold Call.distinctItems <;> infer_instance

/-- The key of a score row: contestant, rubric item, judge. -/
def Score.key (r : Score) : Option Int × Option Int × Option String :=
  (r.player_id, r.item_id, r.judge_id)

/-- Value of a run of decimal digits, most significant first, after `acc`. -/
def digitsValue : List Char → Nat → Option Nat
  | [], acc => some acc
  | c :: cs, acc => if c.isDigit then digitsValue cs (acc * 10 + (c.toNat - 48)) else none

/-- The number of hundredths a text `digits . digit digit` denotes. -/
def hundredthsOf (s : String) : Option Nat :=
  match s.data.reverse with
  | ones :: tens :: '.' :: whole =>
    if whole = [] then none else digitsValue (whole.reverse ++ [tens, ones]) 0
  | _ => none

/-- The integers of a list of values, when all of them are integers. -/
def integerValues : List SqlValue → Option (List Int)
  | [] => some []
  | .integer n :: vs => (integerValues vs).map (fun ns => n :: ns)
  | _ :: _ => none

/-- The sum of score values of the contract: the integer sum of integer
values, 0 for none; a sheet with a REAL or a text is summed in floating point. -/
def contractTotal (values : List SqlValue) : Number :=
  let present := values.filter (fun v => decide (v ≠ .null))
  match integerValues present with
  | some ns => .integer ns.sum
  | none => E.sumReal present

/-- The record the ranking contract describes for contestant `p`: its fields,
the number of distinct judge ids among its score rows (a row without judge
carries none), the sum of its score values, and the average. -/
def contractRecord (s : Store) (p : Player) : ResultRecord :=
  let mine := s.scores.filter (fun r => decide (r.player_id = some p.id))
  let judgeCount := ((mine.filterMap (·.judge_id)).dedup).length
  let totalScore := contractTotal E (mine.map (·.score))
  { id := p.id, name := p.name, info := p.info,
    judge_count := judgeCount, total_score := totalScore,
    final_average_score :=
      if judgeCount > 0 then .string (averageText E totalScore judgeCount) else .number 0 }

/-! ## Invariants used in the proofs -/

/-- Session invariant: an open contestant is a non-empty string and comes with
a bound, non-empty rubric set. -/
def Session.coherent (s : Session) : Prop :=
  (∀ p, s.currentScoringPlayerId = some p →
      p ≠ "" ∧ ∃ a, s.activeScoringSetId = .bound a) ∧
  (∀ a, s.activeScoringSetId = .bound a → a ≠ "")

/-- Every cached id is the id of a set whose name is the stored form of the key. -/
def cacheAgrees (cache : GroupCache) (s : Store) : Prop :=
  ∀ v id, cache.lookup v = some id →
    ∃ set ∈ s.scoring_sets, set.id = id ∧ textCell E (bindParam v) = some set.name

/-- The item `item` is what the import stores for `row`, under a set of `sets`
that carries the row's set name. -/
def itemOfRow (sets : List ScoringSet) (row : ImportRow) (item : ScoringItem) : Prop :=
  textCell E (bindParam row.itemName) = some item.name ∧
  item.description = textCell E (bindParam (row.description.orElse (.string ""))) ∧
  item.max_score = (bindParam row.maxScore).integerAffinity E ∧
  ∃ set ∈ sets, textCell E (bindParam row.setName) = some set.name ∧ item.set_id = set.id

/-! ## Sample states -/

/-- Text that spells a decimal integer: an optional sign, then digits. -/
def integerLiteral (s : String) : Option Int :=
  match s.data with
  | [] => none
  | '-' :: cs => if cs = [] then none else (digitsValue cs 0).map (fun n => - (n : Int))
  | '+' :: cs => if cs = [] then none else (digitsValue cs 0).map (fun n => (n : Int))
  | cs => (digitsValue cs 0).map (fun n => (n : Int))

/-- An engine to evaluate the examples with.  It converts the texts that spell
a decimal integer and no others; the examples below hold no other numeric
text and no non-integer, so nothing else of it is consulted there. -/
def plainEngine : Engine :=
  { numericText := fun s => (integerLiteral s).map Number.integer,
    realText := fun _ => "",
    fractionString := fun _ => "",
    sumReal := fun _ => .integer 0,
    fractionFixed2 := fun _ _ => "" }

/-- One contestant, one rubric item, and the score judge `j1` gave for it. -/
def sampleStore : Store :=
  { players := [{ id := 1, name := "A", info := none }],
    scoring_sets := [{ id := 1, name := "Round1" }],
    scoring_items :=
      [{ id := 1, name := "Style", description := some "", max_score := .integer 10,
         set_id := 1 }],
    scores := [{ id := 1, player_id := some 1, item_id := some 1, score := .integer 8,
                 judge_id := some "j1" }],
    sets_seq := 1, items_seq := 1, scores_seq := 1 }

/-- Contestant 1 is open for scoring over `sampleStore`. -/
def sampleState : State :=
  { session := { currentScoringPlayerId := some "1", activeScoringSetId := .bound "1" },
    db := { store := sampleStore, journal := none } }

/-- The sample contestant and rubric with an empty score table. -/
def sampleRoster : Store := { sampleStore with scores := [], scores_seq := 0 }

/-- Contestant A scored by two judges on two items, contestant B not scored. -/
def scoreboard : Store :=
  { players := [{ id := 1, name := "A", info := none }, { id := 2, name := "B", info := none }],
    scoring_sets := [{ id := 1, name := "Round1" }],
    scoring_items :=
      [{ id := 1, name := "Style", description := some "", max_score := .integer 10,
         set_id := 1 },
       { id := 2, name := "Technique", description := some "", max_score := .integer 10,
         set_id := 1 }],
    scores :=
      [{ id := 1, player_id := some 1, item_id := some 1, score := .integer 8,
         judge_id := some "judge1" },
       { id := 2, player_id := some 1, item_id := some 2, score := .integer 9,
         judge_id := some "judge1" },
       { id := 3, player_id := some 1, item_id := some 1, score := .integer 7,
         judge_id := some "judge2" },
       { id := 4, player_id := some 1, item_id := some 2, score := .integer 10,
         judge_id := some "judge2" }],
    sets_seq := 1, items_seq := 2, scores_seq := 4 }

/-- Two rows of one rubric set, as parsed from a spreadsheet. -/
def round1Rows : List ImportRow :=
  [{ setName := .string "Round1", itemName := .string "Style", description := .undefined,
     maxScore := .number 10 },
   { setName := .string "Round1", itemName := .string "Technique", description := .undefined,
     maxScore := .number 10 }]

/-- A store without any row. -/
def emptyStore : Store :=
  { players := [], scoring_sets := [], scoring_items := [], scores := [],
    sets_seq := 0, items_seq := 0, scores_seq := 0 }

/-- The double 8.5. -/
def eightAndHalf : Fraction :=
  { mantissa := 17, shift := 1, odd := by decide, positive := by decide }

end ScoringSystem

/-! # Theorems -/

namespace ScoringSystem

variable (E : Engine)

/-! ## Live control -/

theorem submitScores_session (st : State) (body : ScoresBody) (ok : Bool) :
    (submitScores E st body ok).2.session = st.session := by
  unfold submitScores
  split
  · rfl
  · split
    · rfl
    · split
      · rfl
      · split <;> rfl

theorem step_coherent (st : State) (c : Call) (hc : c.routed)
    (h : st.session.coherent) : (step E st c).session.coherent := by
  obtain ⟨h1, h2⟩ := h
  cases c with
  | activateRubricSet setId =>
    refine ⟨fun p hp => ⟨(h1 p hp).1, setId, rfl⟩, fun a ha => ?_⟩
    have : setId = a := by simpa [step, activateRubricSet] using ha
    exact this ▸ hc
  | startScoring playerId =>
    show (startScoring st.session playerId).2.coherent
    unfold startScoring
    split
    · exact ⟨h1, h2⟩
    · rename_i a hact
      have ha : a ≠ "" := h2 a hact
      simp only [ha, if_false]
      refine ⟨fun p hp => ?_, fun b hb => h2 b hb⟩
      have : playerId = p := by simpa using hp
      exact ⟨this ▸ hc, a, hact⟩
  | stopScoring =>
    exact ⟨fun p hp => by simp [step, stopScoring] at hp, fun a ha => h2 a ha⟩
  | getCurrent => exact ⟨h1, h2⟩
  | submitScores body ok =>
    have hs : (step E st (.submitScores body ok)).session = st.session :=
      submitScores_session E st body ok
    rw [Session.coherent, hs]
    exact ⟨h1, h2⟩

theorem run_coherent (calls : List Call) :
    ∀ st : State, (∀ c ∈ calls, c.routed) → st.session.coherent →
      (run E st calls).session.coherent := by
  induction calls with
  | nil => intro st _ h; exact h
  | cons c cs ih =>
    intro st hr h
    exact ih (step E st c) (fun d hd => hr d (List.mem_cons_of_mem _ hd))
      (step_coherent E st c (hr c (List.mem_cons_self _ _)) h)

theorem getCurrent_empty_iff (s : Session) (store : Store) (h : s.coherent) :
    getCurrent E s store = .current none [] ↔ s.currentScoringPlayerId = none := by
  obtain ⟨h1, h2⟩ := h
  unfold getCurrent
  cases hp : s.currentScoringPlayerId with
  | none => simp
  | some p =>
    obtain ⟨hne, a, ha⟩ := h1 p hp
    have hane : a ≠ "" := h2 a ha
    simp only [hne, if_false, ha, hane]
    split <;> simp

theorem startScoring_unassigned (s : Session) (playerId : String)
    (h : s.activeScoringSetId = .undeclared) :
    startScoring s playerId = (.referenceError, s) := by
  unfold startScoring
  rw [h]

/-- C4 (the failing input): at process start no rubric set has been activated,
and `startScoring("1")` does not answer with the precondition error: reading
the never-declared `activeScoringSetId` throws `ReferenceError`.  The open
contestant stays as it was. -/
theorem startScoring_at_process_start :
    startScoring Session.atStart "1" = (.referenceError, Session.atStart) ∧
    (startScoring Session.atStart "1").1 ≠ .badRequest := by
  decide

/-- Second half of C4: right after `activateRubricSet(setId)`, `startScoring`
succeeds and opens the given contestant, whatever was open before. -/
theorem startScoring_after_activate (s : Session) (setId playerId : String)
    (h : setId ≠ "") :
    startScoring (activateRubricSet s setId).2 playerId =
      (.ok, { currentScoringPlayerId := some playerId, activeScoringSetId := .bound setId }) := by
  simp [startScoring, activateRubricSet, h]

/-- C10: in every state reached from process start by routed calls of
`activateRubricSet`, `startScoring`, `stopScoring`, `getCurrent` and
`submitScores`, an open contestant implies that the rubric set variable has
been assigned, and `getCurrent` answers `(null, [])` exactly when no contestant
is open. -/
theorem session_invariant (db : Db) (calls : List Call) (h : ∀ c ∈ calls, c.routed) :
    ((run E ⟨Session.atStart, db⟩ calls).session.currentScoringPlayerId ≠ none →
      (run E ⟨Session.atStart, db⟩ calls).session.activeScoringSetId ≠ .undeclared) ∧
    (getCurrent E (run E ⟨Session.atStart, db⟩ calls).session
        (run E ⟨Session.atStart, db⟩ calls).db.store = .current none [] ↔
      (run E ⟨Session.atStart, db⟩ calls).session.currentScoringPlayerId = none) := by
  have hinv : (run E ⟨Session.atStart, db⟩ calls).session.coherent :=
    run_coherent E calls ⟨Session.atStart, db⟩ h
      ⟨fun p hp => by simp [Session.atStart] at hp, fun a ha => by simp [Session.atStart] at ha⟩
  refine ⟨fun hne => ?_, getCurrent_empty_iff E _ _ hinv⟩
  cases hp : (run E ⟨Session.atStart, db⟩ calls).session.currentScoringPlayerId with
  | none => exact absurd hp hne
  | some p =>
    obtain ⟨_, a, ha⟩ := hinv.1 p hp
    rw [ha]; simp

/-- C10 at a concrete run: activate set 1, start contestant 7, ask, stop. -/
theorem session_invariant_witness :
    (getCurrent plainEngine (run plainEngine ⟨Session.atStart, ⟨sampleStore, none⟩⟩
        [.activateRubricSet "1", .startScoring "7", .getCurrent, .stopScoring]).session
        (run plainEngine ⟨Session.atStart, ⟨sampleStore, none⟩⟩
          [.activateRubricSet "1", .startScoring "7", .getCurrent, .stopScoring]).db.store
        = .current none [] ↔
      (run plainEngine ⟨Session.atStart, ⟨sampleStore, none⟩⟩
        [.activateRubricSet "1", .startScoring "7", .getCurrent, .stopScoring]
        ).session.currentScoringPlayerId = none) :=
  (session_invariant plainEngine ⟨sampleStore, none⟩
    [.activateRubricSet "1", .startScoring "7", .getCurrent, .stopScoring]
    (by decide)).2

/-! ## Score submission -/

theorem le_foldr_max_seq (seq : Int) (ids : List Int) : seq ≤ ids.foldr max seq := by
  induction ids with
  | nil => simp
  | cons i is ih => simp only [List.foldr_cons]; exact le_trans ih (le_max_right _ _)

theorem le_foldr_max_mem (seq : Int) (ids : List Int) :
    ∀ i ∈ ids, i ≤ ids.foldr max seq := by
  induction ids with
  | nil => intro i hi; simp at hi
  | cons j js ih =>
    intro i hi
    simp only [List.foldr_cons]
    rcases List.mem_cons.mp hi with rfl | h
    · exact le_max_left _ _
    · exact le_trans (ih i h) (le_max_right _ _)

theorem seq_lt_nextRowid (seq : Int) (ids : List Int) : seq < nextRowid seq ids := by
  have := le_foldr_max_seq seq ids
  unfold nextRowid; omega

theorem mem_lt_nextRowid (seq : Int) (ids : List Int) (i : Int) (hi : i ∈ ids) :
    i < nextRowid seq ids := by
  have := le_foldr_max_mem seq ids i hi
  unfold nextRowid; omega

theorem runUnchecked_fold (c j : JsValue) (items : List ScoreItem) :
    ∀ d : Db, items.foldl (fun acc item => acc.runUnchecked (insertItem E c j item)) d =
      { store := insertAll E c j items d.store, journal := d.journal } := by
  induction items with
  | nil => intro d; rfl
  | cons item rest ih =>
    intro d
    simp only [List.foldl_cons, insertAll]
    rw [ih]
    unfold Db.runUnchecked
    cases insertItem E c j item d.store <;> rfl

theorem begin_store (d : Db) : d.begin.store = d.store := by
  unfold Db.begin; cases d.journal <;> rfl

theorem replaceScores_eq (d : Db) (c j : JsValue) (items : List ScoreItem) :
    replaceScores E d c j items =
      { store := insertAll E c j items (deleteScores E d.store c j),
        journal := d.begin.journal } := by
  unfold replaceScores
  rw [runUnchecked_fold]
  simp only [Db.runUnchecked, begin_store]

theorem begin_journal_of_none (d : Db) (h : d.journal = none) :
    d.begin.journal = some d.store := by
  unfold Db.begin; rw [h]

theorem itemCells_congr (s t : Store) (hp : t.players = s.players)
    (hi : t.scoring_items = s.scoring_items) (c j : JsValue) (item : ScoreItem) :
    itemCells E t c j item = itemCells E s c j item := by
  unfold itemCells scoreCells; rw [hp, hi]

theorem insertItem_of_cells (c j : JsValue) (item : ScoreItem) (s : Store)
    (cells : Option Int × Option Int × SqlValue × Option String)
    (h : itemCells E s c j item = some cells) :
    insertItem E c j item s = some (s.appendScore cells) := by
  unfold insertItem insertScore
  unfold itemCells at h
  rw [h]

theorem insertItem_of_rejected (c j : JsValue) (item : ScoreItem) (s : Store)
    (h : itemCells E s c j item = none) : insertItem E c j item s = none := by
  unfold insertItem insertScore
  unfold itemCells at h
  rw [h]

theorem insertItem_isSome (c j : JsValue) (item : ScoreItem) (s : Store) :
    (insertItem E c j item s).isSome = (itemCells E s c j item).isSome := by
  cases h : itemCells E s c j item with
  | none => rw [insertItem_of_rejected E c j item s h]; rfl
  | some cells => rw [insertItem_of_cells E c j item s cells h]; rfl

theorem insertAll_spec (c j : JsValue) (items : List ScoreItem) : ∀ s : Store,
    ∃ new : List Score,
      insertAll E c j items s =
        { s with scores := s.scores ++ new,
                 scores_seq := (insertAll E c j items s).scores_seq } ∧
      new.map Score.cells = items.filterMap (itemCells E s c j) ∧
      s.scores_seq ≤ (insertAll E c j items s).scores_seq ∧
      (∀ r ∈ new, s.scores_seq < r.id ∧ r.id ≤ (insertAll E c j items s).scores_seq ∧
        ∀ r0 ∈ s.scores, r0.id < r.id) := by
  induction items with
  | nil =>
    intro s
    exact ⟨[], by simp [insertAll], by simp, by simp [insertAll], by simp⟩
  | cons item rest ih =>
    intro s
    cases h : itemCells E s c j item with
    | none =>
      obtain ⟨new, h1, h2, h3, h4⟩ := ih s
      have hs : insertAll E c j (item :: rest) s = insertAll E c j rest s := by
        simp [insertAll, insertItem_of_rejected E c j item s h]
      refine ⟨new, ?_, ?_, ?_, ?_⟩
      · rw [hs]; exact h1
      · simp [List.filterMap_cons, h, h2]
      · rw [hs]; exact h3
      · rw [hs]; exact h4
    | some cells =>
      have hins := insertItem_of_cells E c j item s cells h
      have hs : insertAll E c j (item :: rest) s =
          insertAll E c j rest (s.appendScore cells) := by
        simp [insertAll, hins]
      obtain ⟨new, h1, h2, h3, h4⟩ := ih (s.appendScore cells)
      have hseq : (s.appendScore cells).scores_seq =
          nextRowid s.scores_seq (s.scores.map (·.id)) := rfl
      have hlt := seq_lt_nextRowid s.scores_seq (s.scores.map (·.id))
      refine ⟨(⟨nextRowid s.scores_seq (s.scores.map (·.id)), cells.1, cells.2.1,
                cells.2.2.1, cells.2.2.2⟩ : Score) :: new, ?_, ?_, ?_, ?_⟩
      · rw [hs, h1]
        simp [Store.appendScore]
      · simp only [List.filterMap_cons, h, List.map_cons, h2]
        congr 1
      · rw [hs]; omega
      · intro r hr
        rw [hs]
        rcases List.mem_cons.mp hr with rfl | hr
        · refine ⟨hlt, by simp only; omega, fun r0 hr0 => ?_⟩
          exact mem_lt_nextRowid _ _ _ (List.mem_map_of_mem _ hr0)
        · obtain ⟨a, b, c0⟩ := h4 r hr
          refine ⟨by omega, b, fun r0 hr0 => c0 r0 ?_⟩
          exact List.mem_append_left _ hr0

theorem bindParam_ne_null (c : JsValue) (h : c.truthy = true) : bindParam c ≠ .null := by
  cases c <;> simp_all [JsValue.truthy, bindParam]

theorem toSql_ne_null (n : Number) : n.toSql ≠ .null := by
  cases n <;> simp [Number.toSql]

theorem integerAffinity_ne_null (v : SqlValue) (hv : v ≠ .null) :
    v.integerAffinity E ≠ .null := by
  cases v with
  | null => exact absurd rfl hv
  | integer n => simp [SqlValue.integerAffinity]
  | real x => simp [SqlValue.integerAffinity]
  | text s =>
    simp only [SqlValue.integerAffinity]
    split
    · exact toSql_ne_null _
    · simp

theorem eqInteger_iff (cell : Option Int) (v : SqlValue) (hv : v ≠ .null) :
    eqInteger E cell v = true ↔ SqlValue.ofCell cell = v.integerAffinity E := by
  have hne := integerAffinity_ne_null E v hv
  unfold eqInteger
  cases cell with
  | none =>
    simp only [SqlValue.ofCell]
    constructor
    · intro h; simp at h
    · intro h; exact absurd h.symm hne
  | some a =>
    cases hva : v.integerAffinity E <;> simp [SqlValue.ofCell]

theorem foreignKeyCell_affinity (ids : List Int) (v : SqlValue) (i : Option Int)
    (h : foreignKeyCell E ids v = some i) :
    v.integerAffinity E = SqlValue.ofCell i := by
  unfold foreignKeyCell at h
  cases hva : v.integerAffinity E with
  | null => rw [hva] at h; simp only at h; cases h; rfl
  | integer n =>
    rw [hva] at h
    simp only at h
    split at h
    · cases h; rfl
    · simp at h
  | real x => rw [hva] at h; simp at h
  | text s => rw [hva] at h; simp at h

theorem textCell_isSome (v : SqlValue) (hv : v ≠ .null) : ∃ a, textCell E v = some a := by
  cases v with
  | null => exact absurd rfl hv
  | integer n => exact ⟨_, rfl⟩
  | real x => exact ⟨_, rfl⟩
  | text s => exact ⟨_, rfl⟩

theorem eqText_iff (a : String) (v : SqlValue) :
    eqText E (some a) v = true ↔ textCell E v = some a := by
  unfold eqText textCell
  cases v.textAffinity E <;> simp [eq_comm]

theorem eqText_iff_cell (cell : Option String) (v : SqlValue) (hv : v ≠ .null) :
    eqText E cell v = true ↔ cell = textCell E v := by
  obtain ⟨b, hb⟩ := textCell_isSome E v hv
  cases cell with
  | none =>
    rw [hb]
    constructor
    · intro h; simp [eqText] at h
    · intro h; cases h
  | some a =>
    rw [eqText_iff, hb]
    constructor
    · intro h; rw [h]
    · intro h; rw [h]

theorem storedNumber_eq (v : JsValue) :
    storedNumber E v = (bindParam v).integerAffinity E := by
  cases v with
  | undefined => rfl
  | null => rfl
  | boolean b => cases b <;> rfl
  | number n => rfl
  | fraction x => rfl
  | string s =>
    simp only [storedNumber, bindParam, SqlValue.integerAffinity]
    cases E.numericText s with
    | none => rfl
    | some n => cases n <;> rfl

theorem storedText_eq (v : JsValue) : storedText E v = textCell E (bindParam v) := by
  cases v with
  | undefined => rfl
  | null => rfl
  | boolean b => cases b <;> rfl
  | number n => rfl
  | fraction x => rfl
  | string s => rfl

theorem sheetOf_iff (c j : JsValue) (hc : c.truthy = true) (hj : j.truthy = true)
    (r : Score) : sheetOf E c j r = true ↔ belongsTo E c j r := by
  unfold sheetOf belongsTo
  rw [Bool.and_eq_true, eqInteger_iff E _ _ (bindParam_ne_null c hc),
    eqText_iff_cell E _ _ (bindParam_ne_null j hj), storedNumber_eq, storedText_eq]

theorem sheetOf_eq_decide (c j : JsValue) (hc : c.truthy = true) (hj : j.truthy = true) :
    sheetOf E c j = fun r => decide (belongsTo E c j r) := by
  funext r
  by_cases h : belongsTo E c j r
  · rw [decide_eq_true h]; exact (sheetOf_iff E c j hc hj r).mpr h
  · rw [decide_eq_false h]
    cases hs : sheetOf E c j r with
    | false => rfl
    | true => exact absurd ((sheetOf_iff E c j hc hj r).mp hs) h

theorem notNullCell_eq (v w : SqlValue) (h : notNullCell E v = some w) :
    w = v.integerAffinity E := by
  unfold notNullCell at h
  split at h
  · cases h
  · cases h; rfl

theorem itemCells_carries (s : Store) (c j : JsValue) (item : ScoreItem)
    (r : Score) (h : itemCells E s c j item = some r.cells) : carries E c j item r := by
  unfold itemCells scoreCells at h
  split at h
  · rename_i p i v hp hi hv
    simp only [Score.cells, Option.some.injEq, Prod.mk.injEq] at h
    obtain ⟨h1, h2, h3, h4⟩ := h
    refine ⟨⟨?_, ?_⟩, ?_, ?_⟩
    · rw [← h1, storedNumber_eq]; exact (foreignKeyCell_affinity E _ _ p hp).symm
    · rw [← h4, storedText_eq]
    · rw [← h2, storedNumber_eq]; exact (foreignKeyCell_affinity E _ _ i hi).symm
    · rw [← h3, storedNumber_eq]; exact notNullCell_eq E _ _ hv
  · simp at h

theorem sheetOf_of_itemCells (s : Store) (c j : JsValue) (item : ScoreItem)
    (hc : c.truthy = true) (hj : j.truthy = true)
    (r : Score) (h : itemCells E s c j item = some r.cells) : sheetOf E c j r = true :=
  (sheetOf_iff E c j hc hj r).mpr (itemCells_carries E s c j item r h).1

theorem sheetOf_new_rows (s : Store) (c j : JsValue) (items : List ScoreItem)
    (hc : c.truthy = true) (hj : j.truthy = true) (new : List Score)
    (h : new.map Score.cells = items.filterMap (itemCells E s c j)) :
    ∀ r ∈ new, sheetOf E c j r = true := by
  intro r hr
  have : r.cells ∈ items.filterMap (itemCells E s c j) := by
    rw [← h]; exact List.mem_map_of_mem _ hr
  obtain ⟨item, _, hitem⟩ := List.mem_filterMap.mp this
  exact sheetOf_of_itemCells E s c j item hc hj r hitem

theorem submitScores_created (st : State) (body : ScoresBody) (items : List ScoreItem)
    (hs : body.scores = some items) (hne : items ≠ [])
    (hc : body.playerId.truthy = true) (hj : body.judgeId.truthy = true)
    (hopen : st.session.currentScoringPlayerId = some (body.playerId.toStr E)) :
    submitScores E st body true =
      (.created, { st with db :=
        { store := insertAll E body.playerId body.judgeId items
            (deleteScores E st.db.store body.playerId body.judgeId),
          journal := none } }) := by
  have hlen : items.length ≠ 0 := fun h => hne (List.length_eq_zero.mp h)
  unfold submitScores
  simp only [hs, hc, hj, hlen, hopen, replaceScores_eq, Db.commit]
  simp

theorem submitScores_failed (st : State) (body : ScoresBody) (hjournal : st.db.journal = none) :
    (submitScores E st body false).2 = st := by
  unfold submitScores
  split
  · rfl
  · split
    · rfl
    · split
      · rfl
      · simp only [replaceScores_eq, Db.commit, Db.rollback, begin_journal_of_none _ hjournal]
        cases st with
        | mk session db =>
          cases db with
          | mk store journal =>
            simp only at hjournal
            simp [hjournal]

theorem submitScores_cases (st : State) (body : ScoresBody) (ok : Bool)
    (hjournal : st.db.journal = none) :
    (submitScores E st body ok).2 = st ∨
    ∃ items, body.scores = some items ∧ items ≠ [] ∧
      body.playerId.truthy = true ∧ body.judgeId.truthy = true ∧
      submitScores E st body ok =
        (.created, { st with db :=
          { store := insertAll E body.playerId body.judgeId items
              (deleteScores E st.db.store body.playerId body.judgeId),
            journal := none } }) := by
  cases ok with
  | false => exact Or.inl (submitScores_failed E st body hjournal)
  | true =>
    cases hs : body.scores with
    | none => left; simp [submitScores, hs]
    | some items =>
      by_cases hne : items = []
      · left; simp [submitScores, hs, hne]
      by_cases hc : body.playerId.truthy = true
      swap
      · left; simp [submitScores, hs, hc]
      by_cases hj : body.judgeId.truthy = true
      swap
      · left; simp [submitScores, hs, hj]
      by_cases hopen : st.session.currentScoringPlayerId = some (body.playerId.toStr E)
      swap
      · left
        have hlen : items.length ≠ 0 := fun h => hne (List.length_eq_zero.mp h)
        have : some (body.playerId.toStr E) ≠ st.session.currentScoringPlayerId :=
          fun h => hopen h.symm
        simp [submitScores, hs, hc, hj, hlen, this]
      right
      exact ⟨items, rfl, hne, hc, hj, submitScores_created E st body items hs hne hc hj hopen⟩

/-- C3: `submitScores` answers the validation error when `scores` is missing,
not a list or empty, or `judgeId` or `playerId` is missing or empty (falsy);
otherwise it answers the closed-session error when the string form of
`playerId` is not the open contestant, in particular when none is open; and in
these cases the state, hence every score row, is left as it was. -/
theorem submitScores_preconditions (st : State) (body : ScoresBody) (ok : Bool) :
    ((body.scores = none ∨ body.scores = some [] ∨ body.judgeId.truthy = false ∨
        body.playerId.truthy = false) →
      submitScores E st body ok = (.badRequest, st)) ∧
    (∀ items, body.scores = some items → items ≠ [] → body.judgeId.truthy = true →
        body.playerId.truthy = true →
        some (body.playerId.toStr E) ≠ st.session.currentScoringPlayerId →
      submitScores E st body ok = (.forbidden, st)) ∧
    (st.session.currentScoringPlayerId = none →
      submitScores E st body ok = (.badRequest, st) ∨
      submitScores E st body ok = (.forbidden, st)) := by
  refine ⟨?_, ?_, ?_⟩
  · intro h
    cases hs : body.scores with
    | none => simp [submitScores, hs]
    | some items =>
      rcases h with h | h | h | h
      · rw [hs] at h; cases h
      · rw [hs] at h; cases h; simp [submitScores, hs]
      · simp [submitScores, hs, h]
      · simp [submitScores, hs, h]
  · intro items hs hne hj hc hopen
    have hlen : items.length ≠ 0 := fun h => hne (List.length_eq_zero.mp h)
    simp [submitScores, hs, hc, hj, hlen, hopen]
  · intro hnone
    cases hs : body.scores with
    | none => left; simp [submitScores, hs]
    | some items =>
      by_cases hbad : (!body.playerId.truthy || decide (items.length = 0) ||
          !body.judgeId.truthy) = true
      · left; simp only [submitScores, hs, hbad, if_true]
      · right
        simp only [submitScores, hs, hbad, hnone]
        simp

/-- C3 at a concrete request: contestant 1 is open, scores for contestant 2
are refused with the closed-session error. -/
theorem submitScores_preconditions_witness :
    submitScores plainEngine sampleState
        ⟨.number 2, some [⟨.number 1, .number 5⟩], .string "j1"⟩ true =
      (.forbidden, sampleState) :=
  (submitScores_preconditions plainEngine sampleState
    ⟨.number 2, some [⟨.number 1, .number 5⟩], .string "j1"⟩ true).2.1
    [⟨.number 1, .number 5⟩] rfl (by decide) (by decide) (by decide) (by decide)

theorem filter_not_sheetOf_append (c j : JsValue) (old new : List Score)
    (hnew : ∀ r ∈ new, sheetOf E c j r = true) :
    (old.filter (fun r => !sheetOf E c j r) ++ new).filter (fun r => !sheetOf E c j r) =
      old.filter (fun r => !sheetOf E c j r) := by
  rw [List.filter_append, List.filter_filter]
  have : new.filter (fun r => !sheetOf E c j r) = [] := by
    rw [List.filter_eq_nil_iff]
    intro r hr
    simp [hnew r hr]
  rw [this, List.append_nil]
  congr 1
  funext r
  simp

theorem deleteScores_scores (s : Store) (c j : JsValue) :
    (deleteScores E s c j).scores = s.scores.filter (fun r => !sheetOf E c j r) := rfl

/-- C9: `submitScores(c, j, items)` writes only the sheet of `(c, j)`.  Whether
it succeeds or fails, the score rows that are not rows of contestant `c` and
judge `j` are the same rows afterwards, and the contestants, rubric sets,
rubric items and both session variables are unchanged. -/
theorem submitScores_frame (st : State) (body : ScoresBody) (ok : Bool)
    (hjournal : st.db.journal = none) :
    (submitScores E st body ok).2.session = st.session ∧
    (submitScores E st body ok).2.db.store.players = st.db.store.players ∧
    (submitScores E st body ok).2.db.store.scoring_sets = st.db.store.scoring_sets ∧
    (submitScores E st body ok).2.db.store.scoring_items = st.db.store.scoring_items ∧
    (submitScores E st body ok).2.db.store.scores.filter
        (fun r => !decide (belongsTo E body.playerId body.judgeId r)) =
      st.db.store.scores.filter
        (fun r => !decide (belongsTo E body.playerId body.judgeId r)) := by
  rcases submitScores_cases E st body ok hjournal with h | ⟨items, _, _, hc, hj, h⟩
  · rw [h]; exact ⟨rfl, rfl, rfl, rfl, rfl⟩
  · rw [h]
    obtain ⟨new, h1, h2, _, _⟩ := insertAll_spec E body.playerId body.judgeId items
      (deleteScores E st.db.store body.playerId body.judgeId)
    have hnew := sheetOf_new_rows E _ body.playerId body.judgeId items hc hj new h2
    have hpred : (fun r => !decide (belongsTo E body.playerId body.judgeId r)) =
        (fun r => !sheetOf E body.playerId body.judgeId r) := by
      rw [sheetOf_eq_decide E body.playerId body.judgeId hc hj]
    refine ⟨rfl, ?_, ?_, ?_, ?_⟩
    · show (insertAll E _ _ _ _).players = _
      rw [h1]; rfl
    · show (insertAll E _ _ _ _).scoring_sets = _
      rw [h1]; rfl
    · show (insertAll E _ _ _ _).scoring_items = _
      rw [h1]; rfl
    · show (insertAll E _ _ _ _).scores.filter _ = _
      rw [h1, hpred]
      show (_ ++ new).filter _ = _
      rw [deleteScores_scores]
      exact filter_not_sheetOf_append E _ _ _ _ hnew

/-- C9 at a concrete request on the sample state: judge `j2` submits a sheet
for contestant 1, and the row of judge `j1` is still there. -/
theorem submitScores_frame_witness :
    (submitScores plainEngine sampleState
        ⟨.number 1, some [⟨.number 1, .number 9⟩], .string "j2"⟩ true
      ).2.db.store.scores.filter
        (fun r => !decide (belongsTo plainEngine (.number 1) (.string "j2") r)) =
    sampleState.db.store.scores.filter
      (fun r => !decide (belongsTo plainEngine (.number 1) (.string "j2") r)) :=
  (submitScores_frame plainEngine sampleState
    ⟨.number 1, some [⟨.number 1, .number 9⟩], .string "j2"⟩ true rfl).2.2.2.2

/-- C1 (the failing input): judge `j1` already scored contestant 1 and
resubmits two items, the second naming a rubric item that does not exist.
SQLite rejects the second insert, no statement's error is looked at before
COMMIT, and the call answers success: the earlier row is gone and the first
new row persists. -/
theorem submitScores_keeps_half_a_sheet :
    insertItem E (.number 1) (.string "j1") ⟨.number 999, .number 5⟩ sampleStore = none ∧
    (submitScores E sampleState
        ⟨.number 1, some [⟨.number 1, .number 9⟩, ⟨.number 999, .number 5⟩], .string "j1"⟩
        true).1
      = .created ∧
    (submitScores E sampleState
        ⟨.number 1, some [⟨.number 1, .number 9⟩, ⟨.number 999, .number 5⟩], .string "j1"⟩
        true).2.db.store.scores
      = [{ id := 2, player_id := some 1, item_id := some 1, score := .integer 9,
           judge_id := some "j1" }] ∧
    sampleState.db.store.scores
      = [{ id := 1, player_id := some 1, item_id := some 1, score := .integer 8,
           judge_id := some "j1" }] :=
  ⟨rfl, rfl, rfl, rfl⟩

theorem forall₂_of_map_eq_filterMap {α β γ : Type} (f : α → Option γ) (g : β → γ)
    (l : List α) (h : ∀ a ∈ l, (f a).isSome = true) :
    ∀ new : List β, new.map g = l.filterMap f →
      List.Forall₂ (fun a r => f a = some (g r)) l new := by
  induction l with
  | nil =>
    intro new hnew
    have : new = [] := by simpa using hnew
    rw [this]; exact List.Forall₂.nil
  | cons a as ih =>
    intro new hnew
    obtain ⟨b, hb⟩ := Option.isSome_iff_exists.mp (h a (List.mem_cons_self _ _))
    rw [List.filterMap_cons, hb] at hnew
    cases new with
    | nil => simp at hnew
    | cons r rs =>
      simp only [List.map_cons, List.cons.injEq] at hnew
      refine List.Forall₂.cons ?_ (ih (fun x hx => h x (List.mem_cons_of_mem _ hx)) rs hnew.2)
      rw [hb, hnew.1]

theorem filter_sheetOf_append (c j : JsValue) (old new : List Score)
    (hnew : ∀ r ∈ new, sheetOf E c j r = true) :
    (old.filter (fun r => !sheetOf E c j r) ++ new).filter (sheetOf E c j) = new := by
  rw [List.filter_append, List.filter_filter]
  have h1 : old.filter (fun r => sheetOf E c j r && !sheetOf E c j r) = [] := by
    rw [List.filter_eq_nil_iff]
    intro r _
    simp
  have h2 : new.filter (sheetOf E c j) = new := List.filter_eq_self.mpr hnew
  rw [h1, h2, List.nil_append]

/-- C2: with contestant `c` open, after `submitScores(c, j, A)` and then
`submitScores(c, j, B)`, both committed, where every insert of `B` is
accepted, the score rows of contestant `c` and judge `j` are exactly one row
per element of `B`, in order, each carrying the rubric item and the value of
its element, and no row that `(c, j)` had after the first call is still in the
table. -/
theorem submitScores_last_write_wins (st : State) (c j : JsValue) (A B : List ScoreItem)
    (hopen : st.session.currentScoringPlayerId = some (c.toStr E))
    (hc : c.truthy = true) (hj : j.truthy = true) (hA : A ≠ []) (hB : B ≠ [])
    (hBok : ∀ b ∈ B, (insertItem E c j b st.db.store).isSome = true) :
    List.Forall₂ (carries E c j) B
      ((submitScores E (submitScores E st ⟨c, some A, j⟩ true).2 ⟨c, some B, j⟩ true
        ).2.db.store.scores.filter (fun r => decide (belongsTo E c j r))) ∧
    (∀ r ∈ (submitScores E st ⟨c, some A, j⟩ true).2.db.store.scores, belongsTo E c j r →
      r ∉ (submitScores E (submitScores E st ⟨c, some A, j⟩ true).2 ⟨c, some B, j⟩ true
        ).2.db.store.scores) := by
  have e1 := submitScores_created E st ⟨c, some A, j⟩ A rfl hA hc hj hopen
  simp only at e1
  rw [e1]
  have e2 := submitScores_created E
    ({ st with db :=
        { store := insertAll E c j A (deleteScores E st.db.store c j),
          journal := none } } : State) ⟨c, some B, j⟩ B rfl hB hc hj hopen
  simp only at e2
  rw [e2]
  simp only
  rw [← sheetOf_eq_decide E c j hc hj]
  obtain ⟨newA, a1, a2, a3, a4⟩ := insertAll_spec E c j A (deleteScores E st.db.store c j)
  generalize insertAll E c j A (deleteScores E st.db.store c j) = s1 at a1 a3 a4 ⊢
  obtain ⟨newB, b1, b2, b3, b4⟩ := insertAll_spec E c j B (deleteScores E s1 c j)
  have hnewA := sheetOf_new_rows E _ c j A hc hj newA a2
  have hnewB := sheetOf_new_rows E _ c j B hc hj newB b2
  have hs1 : s1.scores = st.db.store.scores.filter (fun r => !sheetOf E c j r) ++ newA := by
    rw [a1]; rfl
  have hdel : (deleteScores E s1 c j).scores =
      st.db.store.scores.filter (fun r => !sheetOf E c j r) := by
    rw [deleteScores_scores, hs1]
    exact filter_not_sheetOf_append E c j _ _ hnewA
  have hs2 : (insertAll E c j B (deleteScores E s1 c j)).scores =
      st.db.store.scores.filter (fun r => !sheetOf E c j r) ++ newB := by
    rw [b1]; show _ ++ newB = _; rw [hdel]
  have hcells : ∀ b, itemCells E (deleteScores E s1 c j) c j b =
      itemCells E st.db.store c j b := by
    intro b
    apply itemCells_congr
    · show s1.players = _; rw [a1]; rfl
    · show s1.scoring_items = _; rw [a1]; rfl
  refine ⟨?_, ?_⟩
  · rw [hs2, filter_sheetOf_append E c j _ _ hnewB]
    rw [List.filterMap_congr (fun b _ => hcells b)] at b2
    have hall : ∀ b ∈ B, (itemCells E st.db.store c j b).isSome = true := by
      intro b hb
      rw [← insertItem_isSome]; exact hBok b hb
    have hrel := forall₂_of_map_eq_filterMap (itemCells E st.db.store c j) Score.cells
      B hall newB b2
    exact hrel.imp (fun b r hbr => itemCells_carries E _ c j b r hbr)
  · intro r hr hbelongs hr2
    have hsheet : sheetOf E c j r = true := (sheetOf_iff E c j hc hj r).mpr hbelongs
    rw [hs1] at hr
    rw [hs2] at hr2
    have hrA : r ∈ newA := by
      rcases List.mem_append.mp hr with h | h
      · have := (List.mem_filter.mp h).2
        simp [hsheet] at this
      · exact h
    have hle : r.id ≤ s1.scores_seq := (a4 r hrA).2.1
    rcases List.mem_append.mp hr2 with h | h
    · have := (List.mem_filter.mp h).2
      simp [hsheet] at this
    · have hlt := (b4 r h).1
      have : (deleteScores E s1 c j).scores_seq = s1.scores_seq := rfl
      omega

/-- C2 at a concrete pair of submissions by judge `j1` for contestant 1: the
second sheet holds the half point 8.5 for item 1 and the text `abc` for the
item spelled `"1"`. -/
theorem submitScores_last_write_wins_witness :
    List.Forall₂ (carries plainEngine (.number 1) (.string "j1"))
      [⟨.number 1, .fraction eightAndHalf⟩, ⟨.string "1", .string "abc"⟩]
      ((submitScores plainEngine (submitScores plainEngine sampleState
          ⟨.number 1, some [⟨.number 1, .number 9⟩], .string "j1"⟩ true).2
          ⟨.number 1, some [⟨.number 1, .fraction eightAndHalf⟩, ⟨.string "1", .string "abc"⟩],
            .string "j1"⟩ true
        ).2.db.store.scores.filter
          (fun r => decide (belongsTo plainEngine (.number 1) (.string "j1") r))) :=
  (submitScores_last_write_wins plainEngine sampleState (.number 1) (.string "j1")
    [⟨.number 1, .number 9⟩]
    [⟨.number 1, .fraction eightAndHalf⟩, ⟨.string "1", .string "abc"⟩]
    rfl rfl rfl (by decide) (by decide) (by decide)).1

theorem itemCells_affinity (s : Store) (c j : JsValue) (item : ScoreItem)
    (cells : Option Int × Option Int × SqlValue × Option String)
    (h : itemCells E s c j item = some cells) :
    storedNumber E item.itemId = SqlValue.ofCell cells.2.1 := by
  unfold itemCells scoreCells at h
  split at h
  · rename_i p i v _ hi _
    cases h
    rw [storedNumber_eq]
    exact foreignKeyCell_affinity E _ _ i hi
  · simp at h

theorem filterMap_itemCells_nodup (s : Store) (c j : JsValue) (items : List ScoreItem)
    (h : (items.map (fun i => storedNumber E i.itemId)).Nodup) :
    ((items.filterMap (itemCells E s c j)).map (fun cells => cells.2.1)).Nodup := by
  induction items with
  | nil => simp
  | cons item rest ih =>
    rw [List.map_cons, List.nodup_cons] at h
    cases hcell : itemCells E s c j item with
    | none => simpa [List.filterMap_cons, hcell] using ih h.2
    | some cells =>
      simp only [List.filterMap_cons, hcell, List.map_cons, List.nodup_cons]
      refine ⟨fun hmem => h.1 ?_, ih h.2⟩
      obtain ⟨cells2, hc2, heq⟩ := List.mem_map.mp hmem
      obtain ⟨item2, hi2, hcell2⟩ := List.mem_filterMap.mp hc2
      have e1 := itemCells_affinity E s c j item cells hcell
      have e2 := itemCells_affinity E s c j item2 cells2 hcell2
      rw [heq, ← e1] at e2
      exact List.mem_map.mpr ⟨item2, hi2, e2⟩

theorem sheetOf_key (c j : JsValue) (r t : Score) (h : r.key = t.key) :
    sheetOf E c j r = sheetOf E c j t := by
  simp only [Score.key, Prod.mk.injEq] at h
  unfold sheetOf
  rw [h.1, h.2.2]

theorem step_keys_nodup (st : State) (call : Call) (hd : call.distinctItems E)
    (hjournal : st.db.journal = none)
    (h : (st.db.store.scores.map Score.key).Nodup) :
    (step E st call).db.journal = none ∧
    ((step E st call).db.store.scores.map Score.key).Nodup := by
  cases call with
  | activateRubricSet setId => exact ⟨hjournal, h⟩
  | startScoring playerId => exact ⟨hjournal, h⟩
  | stopScoring => exact ⟨hjournal, h⟩
  | getCurrent => exact ⟨hjournal, h⟩
  | submitScores body ok =>
    show (submitScores E st body ok).2.db.journal = none ∧
      ((submitScores E st body ok).2.db.store.scores.map Score.key).Nodup
    rcases submitScores_cases E st body ok hjournal with e | ⟨items, hs, _, hc, hj, e⟩
    · rw [e]; exact ⟨hjournal, h⟩
    · rw [e]
      refine ⟨rfl, ?_⟩
      obtain ⟨new, h1, h2, _, _⟩ := insertAll_spec E body.playerId body.judgeId items
        (deleteScores E st.db.store body.playerId body.judgeId)
      have hnew := sheetOf_new_rows E _ body.playerId body.judgeId items hc hj new h2
      show ((insertAll E _ _ _ _).scores.map Score.key).Nodup
      rw [h1]
      show ((_ ++ new).map Score.key).Nodup
      rw [deleteScores_scores, List.map_append]
      have hdist : (items.map (fun i => storedNumber E i.itemId)).Nodup := by
        simpa [Call.distinctItems, hs] using hd
      have hitems := filterMap_itemCells_nodup E
        (deleteScores E st.db.store body.playerId body.judgeId)
        body.playerId body.judgeId items hdist
      rw [← h2, List.map_map] at hitems
      refine List.Nodup.append ?_ ?_ ?_
      · exact List.Nodup.sublist (List.Sublist.map _ (List.filter_sublist _)) h
      · exact List.Nodup.of_map (fun k : Option Int × Option Int × Option String => k.2.1)
          (by rw [List.map_map]; exact hitems)
      · intro k hk1 hk2
        obtain ⟨r1, hr1, rfl⟩ := List.mem_map.mp hk1
        obtain ⟨r2, hr2, hkey⟩ := List.mem_map.mp hk2
        have hs1 := (List.mem_filter.mp hr1).2
        have hs2 := hnew r2 hr2
        rw [sheetOf_key E _ _ r2 r1 hkey] at hs2
        simp [hs2] at hs1

theorem run_keys_nodup (calls : List Call) :
    ∀ st : State, (∀ c ∈ calls, c.distinctItems E) → st.db.journal = none →
      (st.db.store.scores.map Score.key).Nodup →
      ((run E st calls).db.store.scores.map Score.key).Nodup := by
  induction calls with
  | nil => intro st _ _ h; exact h
  | cons c cs ih =>
    intro st hd hjournal h
    obtain ⟨hj2, h2⟩ := step_keys_nodup E st c (hd c (List.mem_cons_self _ _)) hjournal h
    exact ih (step E st c) (fun d hdm => hd d (List.mem_cons_of_mem _ hdm)) hj2 h2

/-- Under an engine that converts the text `1.0` to the integer 1, as SQLite
does, a list naming item `1` and item `"1.0"` names one item twice. -/
theorem distinctItems_after_conversion (c j v w : JsValue) (ok : Bool)
    (h : E.numericText "1.0" = some (.integer 1)) :
    ¬ (Call.submitScores ⟨c, some [⟨.number 1, v⟩, ⟨.string "1.0", w⟩], j⟩ ok).distinctItems E := by
  simp [Call.distinctItems, storedNumber, h]

/-- Under such an engine a row of contestant 1 is a row of the contestant
submitted as `"1.0"`: the frame of that submission does not cover it. -/
theorem belongsTo_after_conversion (r : Score) (h : E.numericText "1.0" = some (.integer 1))
    (hp : r.player_id = some 1) (hj : r.judge_id = some "j1") :
    belongsTo E (.string "1.0") (.string "j1") r := by
  simp [belongsTo, storedNumber, storedText, SqlValue.ofCell, h, hp, hj]

/-- C8 as stated fails, whatever SQLite does with text: from an empty score
table, one submission that lists rubric item 1 twice leaves two rows with the
same (contestant, item, judge). -/
theorem score_key_repeated :
    ¬ ∃ E : Engine, ((run E ⟨Session.atStart, ⟨sampleRoster, none⟩⟩
        [.activateRubricSet "1", .startScoring "1",
         .submitScores ⟨.number 1, some [⟨.number 1, .number 5⟩, ⟨.number 1, .number 6⟩],
           .string "j1"⟩ true]).db.store.scores.map Score.key).Nodup := by
  rintro ⟨E, h⟩
  have hkeys : (run E ⟨Session.atStart, ⟨sampleRoster, none⟩⟩
        [.activateRubricSet "1", .startScoring "1",
         .submitScores ⟨.number 1, some [⟨.number 1, .number 5⟩, ⟨.number 1, .number 6⟩],
           .string "j1"⟩ true]).db.store.scores.map Score.key =
      [(some 1, some 1, some "j1"), (some 1, some 1, some "j1")] := rfl
  rw [hkeys] at h
  exact absurd h (by decide)

/-- C8, amended: starting from an empty score table with no transaction open,
after any sequence of `activateRubricSet`, `startScoring`, `stopScoring`,
`getCurrent` and `submitScores` calls in which no submitted list names the same
rubric item twice, no two score rows share (contestant, rubric item, judge). -/
theorem score_keys_unique (st : State) (calls : List Call)
    (hempty : st.db.store.scores = []) (hjournal : st.db.journal = none)
    (hd : ∀ c ∈ calls, c.distinctItems E) :
    ((run E st calls).db.store.scores.map Score.key).Nodup :=
  run_keys_nodup E calls st hd hjournal (by rw [hempty]; exact List.nodup_nil)

/-- C8 amended, at a concrete run with two judges and a resubmission. -/
theorem score_keys_unique_witness :
    ((run plainEngine ⟨Session.atStart, ⟨sampleRoster, none⟩⟩
        [.activateRubricSet "1", .startScoring "1",
         .submitScores ⟨.number 1, some [⟨.number 1, .number 5⟩], .string "j1"⟩ true,
         .submitScores ⟨.string "1", some [⟨.number 1, .number 6⟩], .string "j2"⟩ true,
         .submitScores ⟨.number 1, some [⟨.string "1", .number 7⟩], .string "j1"⟩ true]
      ).db.store.scores.map Score.key).Nodup :=
  score_keys_unique plainEngine ⟨Session.atStart, ⟨sampleRoster, none⟩⟩ _ rfl rfl (by decide)

/-! ## Ranking -/

theorem quotientShift_spec (a b : Nat) : ∀ fuel k : Nat,
    2 ^ 52 * b ≤ a * 2 ^ (k + fuel) → 2 ^ 52 * b ≤ a * 2 ^ quotientShift a b fuel k := by
  intro fuel
  induction fuel with
  | zero => intro k h; simpa [quotientShift] using h
  | succ f ih =>
    intro k h
    unfold quotientShift
    split
    · assumption
    · apply ih
      have : k + 1 + f = k + (f + 1) := by omega
      rw [this]; exact h

theorem roundHalfEven_near (n d : Nat) (hd : 0 < d) :
    2 * (roundHalfEven n d * d) ≤ 2 * n + d ∧ 2 * n ≤ 2 * (roundHalfEven n d * d) + d := by
  have hn : d * (n / d) + n % d = n := Nat.div_add_mod n d
  have hr : n % d < d := Nat.mod_lt n hd
  have hcomm : n / d * d = d * (n / d) := Nat.mul_comm _ _
  have hsucc : (n / d + 1) * d = d * (n / d) + d := by ring
  unfold roundHalfEven
  simp only
  split
  · rw [hcomm]; omega
  · split
    · rw [hsucc]; omega
    · split
      · rw [hcomm]; omega
      · rw [hsucc]; omega

theorem fixedHundredths_near (m k : Nat) :
    2 * 2 ^ k * fixedHundredths (m, k) ≤ 200 * m + 2 ^ k ∧
    200 * m + 2 ^ k < 2 * 2 ^ k * fixedHundredths (m, k) + 2 * 2 ^ k := by
  unfold fixedHundredths
  simp only
  have hpow : 2 ^ (k + 1) = 2 * 2 ^ k := by rw [pow_succ]; ring
  rw [hpow]
  have hpos : 0 < 2 * 2 ^ k := by positivity
  constructor
  · exact Nat.mul_div_le _ _
  · have := Nat.lt_mul_div_succ (200 * m + 2 ^ k) hpos
    rw [Nat.mul_add] at this
    simpa using this

theorem hundredths_nearest (a b : Nat) (hb : 0 < b) (hbig : b < 2 ^ 53)
    (ha : 100 * a < 2 ^ 52) :
    2 * (fixedHundredths (divDouble a b) * b) ≤ 200 * a + b ∧
    200 * a ≤ 2 * (fixedHundredths (divDouble a b) * b) + b := by
  unfold divDouble
  simp only
  generalize hk : quotientShift a b 105 0 = k
  obtain ⟨h2, h3⟩ := roundHalfEven_near (a * 2 ^ k) b hb
  generalize roundHalfEven (a * 2 ^ k) b = m at h2 h3
  obtain ⟨h4, h5⟩ := fixedHundredths_near m k
  generalize fixedHundredths (m, k) = n at h4 h5
  have hS : 0 < 2 ^ k := by positivity
  rcases Nat.eq_zero_or_pos a with rfl | hapos
  · -- the quotient is zero
    simp only [Nat.zero_mul, Nat.mul_zero, Nat.zero_add] at h2 h3 ⊢
    generalize 2 ^ k = S at h4 h5 hS
    have hm : m = 0 := by
      by_contra hne
      have : 1 ≤ m := Nat.one_le_iff_ne_zero.mpr hne
      have : b ≤ m * b := Nat.le_mul_of_pos_left b (by omega)
      omega
    subst hm
    have hn : n = 0 := by
      by_contra hne
      have : 1 ≤ n := Nat.one_le_iff_ne_zero.mpr hne
      have : 2 * S ≤ 2 * S * n := Nat.le_mul_of_pos_right _ (by omega)
      omega
    subst hn
    omega
  · have h1 : 2 ^ 52 * b ≤ a * 2 ^ k := by
      rw [← hk]
      apply quotientShift_spec
      have : 2 ^ 52 * b ≤ 2 ^ 52 * 2 ^ 53 := Nat.mul_le_mul_left _ (le_of_lt hbig)
      calc 2 ^ 52 * b ≤ 2 ^ 52 * 2 ^ 53 := this
        _ = 1 * 2 ^ (0 + 105) := by norm_num
        _ ≤ a * 2 ^ (0 + 105) := Nat.mul_le_mul_right _ hapos
    generalize 2 ^ k = S at h1 h2 h3 h4 h5 hS
    have hSb : 100 * b < S := by
      by_contra hcon
      have hle : S ≤ 100 * b := not_lt.mp hcon
      have e1 : a * S ≤ a * (100 * b) := Nat.mul_le_mul_left _ hle
      have e2 : 100 * a * b < 2 ^ 52 * b := Nat.mul_lt_mul_of_pos_right ha hb
      nlinarith
    constructor
    · by_contra hcon
      have hlt : 200 * a + b + 1 ≤ 2 * (n * b) := by omega
      have e1 : (200 * a + b + 1) * S ≤ 2 * (n * b) * S := Nat.mul_le_mul_right _ hlt
      have e2 : 2 * S * n * b ≤ (200 * m + S) * b := Nat.mul_le_mul_right _ h4
      have e3 : 100 * (2 * (m * b)) ≤ 100 * (2 * (a * S) + b) := Nat.mul_le_mul_left _ h2
      nlinarith
    · by_contra hcon
      have hlt : 2 * (n * b) + b + 1 ≤ 200 * a := by omega
      have e1 : (2 * (n * b) + b + 1) * S ≤ 200 * a * S := Nat.mul_le_mul_right _ hlt
      have e2 : (200 * m + S + 1) * b ≤ (2 * S * n + 2 * S) * b :=
        Nat.mul_le_mul_right _ h5
      have e3 : 100 * (2 * (a * S)) ≤ 100 * (2 * (m * b) + b) := Nat.mul_le_mul_left _ h3
      nlinarith

/-- The rows the join produces for one player. -/
theorem digitChar_value : ∀ d, d < 10 →
    (Nat.digitChar d).isDigit = true ∧ (Nat.digitChar d).toNat - 48 = d := by
  decide

theorem digitsValue_digitChar (d : Nat) (hd : d < 10) (cs : List Char) (acc : Nat) :
    digitsValue (Nat.digitChar d :: cs) acc = digitsValue cs (acc * 10 + d) := by
  obtain ⟨h1, h2⟩ := digitChar_value d hd
  simp only [digitsValue, h1, if_true, h2]

theorem digitsValue_toDigitsCore : ∀ (fuel n : Nat) (ds : List Char), n < fuel →
    digitsValue (Nat.toDigitsCore 10 fuel n ds) 0 = digitsValue ds n := by
  intro fuel
  induction fuel with
  | zero => intro n ds h; omega
  | succ f ih =>
    intro n ds h
    have hmod : n % 10 < 10 := Nat.mod_lt _ (by decide)
    unfold Nat.toDigitsCore
    simp only
    split
    · rename_i h0
      rw [digitsValue_digitChar _ hmod]
      congr 1
      omega
    · rename_i h0
      have hlt : n / 10 < f := by omega
      rw [ih (n / 10) _ hlt, digitsValue_digitChar _ hmod]
      congr 1
      omega

theorem digitsValue_toDigits (n : Nat) : digitsValue (Nat.toDigits 10 n) 0 = some n := by
  unfold Nat.toDigits
  rw [digitsValue_toDigitsCore (n + 1) n [] (by omega)]
  rfl

theorem toDigitsCore_ne_nil : ∀ (fuel n : Nat) (ds : List Char), ds ≠ [] →
    Nat.toDigitsCore 10 fuel n ds ≠ [] := by
  intro fuel
  induction fuel with
  | zero => intro n ds h; simpa [Nat.toDigitsCore] using h
  | succ f ih =>
    intro n ds _
    unfold Nat.toDigitsCore
    simp only
    split
    · simp
    · exact ih _ _ (by simp)

theorem toDigits_ne_nil (n : Nat) : Nat.toDigits 10 n ≠ [] := by
  unfold Nat.toDigits Nat.toDigitsCore
  simp only
  split
  · simp
  · exact toDigitsCore_ne_nil _ _ _ (by simp)

theorem digitsValue_append (xs ys : List Char) : ∀ acc : Nat,
    digitsValue (xs ++ ys) acc = (digitsValue xs acc).bind (fun a => digitsValue ys a) := by
  induction xs with
  | nil => intro acc; rfl
  | cons x xs ih =>
    intro acc
    simp only [List.cons_append, digitsValue]
    split
    · exact ih _
    · rfl

theorem hundredthsOf_hundredthsText (n : Nat) : hundredthsOf (hundredthsText n) = some n := by
  have h1 : n / 10 % 10 < 10 := Nat.mod_lt _ (by decide)
  have h2 : n % 10 < 10 := Nat.mod_lt _ (by decide)
  have hne : (Nat.toDigits 10 (n / 100)).reverse ≠ [] := by
    simpa using toDigits_ne_nil (n / 100)
  unfold hundredthsOf hundredthsText
  simp only [List.reverse_append, List.reverse_cons, List.reverse_nil, List.nil_append,
    List.cons_append, List.singleton_append]
  simp only [hne, if_false, List.reverse_reverse]
  rw [digitsValue_append, digitsValue_toDigits]
  simp only [Option.some_bind]
  rw [digitsValue_digitChar _ h1, digitsValue_digitChar _ h2]
  simp only [digitsValue]
  congr 1
  omega

theorem Number.le_integer (a b : Int) :
    Number.integer a ≤ Number.integer b ↔ a ≤ b := by
  show a * 2 ^ 0 ≤ b * 2 ^ 0 ↔ a ≤ b
  simp

theorem Number.le_total (a b : Number) : a ≤ b ∨ b ≤ a :=
  Int.le_total _ _

theorem Number.le_trans (a b c : Number) (hab : a ≤ b) (hbc : b ≤ c) : a ≤ c := by
  have h1 : a.numerator * 2 ^ b.shift ≤ b.numerator * 2 ^ a.shift := hab
  have h2 : b.numerator * 2 ^ c.shift ≤ c.numerator * 2 ^ b.shift := hbc
  show a.numerator * 2 ^ c.shift ≤ c.numerator * 2 ^ a.shift
  have hx : (0 : Int) < 2 ^ a.shift := by positivity
  have hy : (0 : Int) < 2 ^ b.shift := by positivity
  have hz : (0 : Int) < 2 ^ c.shift := by positivity
  have e1 : a.numerator * 2 ^ b.shift * 2 ^ c.shift ≤ b.numerator * 2 ^ a.shift * 2 ^ c.shift :=
    mul_le_mul_of_nonneg_right h1 hz.le
  have e2 : b.numerator * 2 ^ c.shift * 2 ^ a.shift ≤ c.numerator * 2 ^ b.shift * 2 ^ a.shift :=
    mul_le_mul_of_nonneg_right h2 hx.le
  have e3 : a.numerator * 2 ^ c.shift * 2 ^ b.shift ≤ c.numerator * 2 ^ a.shift * 2 ^ b.shift := by
    calc a.numerator * 2 ^ c.shift * 2 ^ b.shift
        = a.numerator * 2 ^ b.shift * 2 ^ c.shift := by ring
      _ ≤ b.numerator * 2 ^ a.shift * 2 ^ c.shift := e1
      _ = b.numerator * 2 ^ c.shift * 2 ^ a.shift := by ring
      _ ≤ c.numerator * 2 ^ b.shift * 2 ^ a.shift := e2
      _ = c.numerator * 2 ^ a.shift * 2 ^ b.shift := by ring
  exact le_of_mul_le_mul_right e3 hy

theorem integerValues_of_all : ∀ l : List SqlValue,
    (l.all (fun v => v.asInteger.isSome) = true →
      integerValues l = some (l.filterMap SqlValue.asInteger)) ∧
    (l.all (fun v => v.asInteger.isSome) = false → integerValues l = none) := by
  intro l
  induction l with
  | nil => simp [integerValues]
  | cons v vs ih =>
    cases v with
    | integer n =>
      simp only [List.all_cons, SqlValue.asInteger, Option.isSome_some, Bool.true_and,
        integerValues, List.filterMap_cons]
      constructor
      · intro h; rw [ih.1 h]; rfl
      · intro h; rw [ih.2 h]; rfl
    | null => simp [integerValues, SqlValue.asInteger]
    | real x => simp [integerValues, SqlValue.asInteger]
    | text s => simp [integerValues, SqlValue.asInteger]

theorem sqlSum_getD (values : List SqlValue) :
    (sqlSum E values).getD (.integer 0) = contractTotal E values := by
  unfold sqlSum contractTotal
  simp only
  generalize values.filter (fun v => decide (v ≠ .null)) = present
  by_cases hnil : present = []
  · subst hnil
    simp [integerValues]
  · simp only [hnil, if_false]
    cases hall : present.all (fun v => v.asInteger.isSome) with
    | true =>
      rw [(integerValues_of_all present).1 hall]
      simp
    | false =>
      rw [(integerValues_of_all present).2 hall]
      simp

theorem integerValues_map (ns : List Int) :
    integerValues (ns.map SqlValue.integer) = some ns := by
  induction ns with
  | nil => rfl
  | cons n ns ih => simp [integerValues, ih]

theorem contractTotal_integers (ns : List Int) :
    contractTotal E (ns.map SqlValue.integer) = .integer ns.sum := by
  unfold contractTotal
  have : (ns.map SqlValue.integer).filter (fun v => decide (v ≠ .null)) =
      ns.map SqlValue.integer := by
    apply List.filter_eq_self.mpr
    intro v hv
    obtain ⟨n, _, rfl⟩ := List.mem_map.mp hv
    simp
  simp only [this, integerValues_map]

theorem leftJoinScores_cons (p : Player) (ps : List Player) (scores : List Score) :
    leftJoinScores (p :: ps) scores =
      leftJoinScores [p] scores ++ leftJoinScores ps scores := by
  simp [leftJoinScores]

theorem fst_of_mem_leftJoinScores (players : List Player) (scores : List Score)
    (r : Player × Option Score) (h : r ∈ leftJoinScores players scores) : r.1 ∈ players := by
  unfold leftJoinScores at h
  obtain ⟨p, hp, hr⟩ := List.mem_flatMap.mp h
  split at hr
  · simp only [List.mem_singleton] at hr
    rw [hr]; exact hp
  · obtain ⟨_, _, rfl⟩ := List.mem_map.mp hr
    exact hp

theorem mem_leftJoinScores_fst (players : List Player) (scores : List Score) (p : Player) :
    p ∈ (leftJoinScores players scores).map (·.1) ↔ p ∈ players := by
  constructor
  · intro h
    obtain ⟨r, hr, rfl⟩ := List.mem_map.mp h
    exact fst_of_mem_leftJoinScores players scores r hr
  · intro hp
    unfold leftJoinScores
    cases hms : scores.filter (fun s => decide (s.player_id = some p.id)) with
    | nil =>
      refine List.mem_map.mpr ⟨(p, none), List.mem_flatMap.mpr ⟨p, hp, ?_⟩, rfl⟩
      simp [hms]
    | cons m ms =>
      refine List.mem_map.mpr ⟨(p, some m), List.mem_flatMap.mpr ⟨p, hp, ?_⟩, rfl⟩
      simp [hms]

theorem leftJoinScores_filter_absent (players : List Player) (scores : List Score)
    (p : Player) (h : p ∉ players) :
    (leftJoinScores players scores).filter (fun r => decide (r.1 = p)) = [] := by
  rw [List.filter_eq_nil_iff]
  intro r hr
  have := fst_of_mem_leftJoinScores players scores r hr
  simp only [decide_eq_true_eq]
  intro heq
  exact h (heq ▸ this)

theorem leftJoinScores_single (scores : List Score) (p : Player) :
    (((leftJoinScores [p] scores).filter (fun r => decide (r.1 = p))).map (·.2)).filterMap id =
      scores.filter (fun s => decide (s.player_id = some p.id)) := by
  unfold leftJoinScores
  simp only [List.flatMap_cons, List.flatMap_nil, List.append_nil]
  cases hms : scores.filter (fun s => decide (s.player_id = some p.id)) with
  | nil => simp
  | cons m ms =>
    simp only
    rw [List.filter_eq_self.mpr]
    · rw [List.map_map, List.filterMap_map]
      have : (id ∘ (fun r : Player × Option Score => r.2) ∘ fun s => (p, some s)) =
          (some : Score → Option Score) := rfl
      rw [this, List.filterMap_some]
    · intro r hr
      obtain ⟨_, _, rfl⟩ := List.mem_map.mp hr
      simp

theorem leftJoinScores_group (players : List Player) (scores : List Score)
    (hnd : players.Nodup) (p : Player) (hp : p ∈ players) :
    (((leftJoinScores players scores).filter (fun r => decide (r.1 = p))).map (·.2)).filterMap id =
      scores.filter (fun s => decide (s.player_id = some p.id)) := by
  induction players with
  | nil => simp at hp
  | cons q qs ih =>
    rw [List.nodup_cons] at hnd
    rw [leftJoinScores_cons, List.filter_append, List.map_append, List.filterMap_append]
    by_cases hq : q = p
    · subst hq
      rw [leftJoinScores_filter_absent qs scores q hnd.1, leftJoinScores_single]
      simp
    · have hq2 : p ∉ [q] := by simpa using fun h => hq h.symm
      rw [leftJoinScores_filter_absent [q] scores p hq2]
      have hpq : p ∈ qs := by
        rcases List.mem_cons.mp hp with h | h
        · exact absurd h.symm hq
        · exact h
      simpa using ih hnd.2 hpq

theorem withAverage_groupRow (s : Store) (hnd : s.players.Nodup) (p : Player)
    (hp : p ∈ s.players) :
    withAverage E (groupRow E (leftJoinScores s.players s.scores) p) = contractRecord E s p := by
  unfold withAverage groupRow contractRecord countDistinctJudges sumScores
  simp only [leftJoinScores_group s.players s.scores hnd p hp, sqlSum_getD]

theorem computeResults_perm_grouped (s : Store) :
    (computeResults E s).Perm ((groupedRows E s).map (withAverage E)) := by
  unfold computeResults rankRows
  exact List.Perm.map _ (List.perm_insertionSort _ _)

theorem computeResults_perm_contract (s : Store) (hpk : (s.players.map (·.id)).Nodup) :
    (computeResults E s).Perm (s.players.map (contractRecord E s)) := by
  have hnd : s.players.Nodup := List.Nodup.of_map _ hpk
  refine (computeResults_perm_grouped E s).trans ?_
  unfold groupedRows
  simp only [List.map_map]
  have hkeys : ((leftJoinScores s.players s.scores).map (·.1)).dedup.Perm s.players :=
    (List.perm_ext_iff_of_nodup (List.nodup_dedup _) hnd).mpr
      (fun a => by rw [List.mem_dedup, mem_leftJoinScores_fst])
  refine (List.Perm.map _ hkeys).trans ?_
  rw [List.map_congr_left (fun p hp => ?_)]
  exact withAverage_groupRow E s hnd p hp

/-- C6: the records of `computeResults` are in descending `total_score` order:
each record's total is at least that of every later record, in particular of
the next one, and for integer totals this is the order of the integers; and
the result is a permutation of the per-contestant records computed before
ordering. -/
theorem computeResults_ordered (s : Store) :
    (computeResults E s).Pairwise (fun r1 r2 => r1.total_score ≥ r2.total_score) ∧
    (∀ (i : Nat) (h : i + 1 < (computeResults E s).length),
      (computeResults E s)[i].total_score ≥ (computeResults E s)[i + 1].total_score) ∧
    (computeResults E s).Perm ((groupedRows E s).map (withAverage E)) ∧
    (computeResults E s).Pairwise (fun r1 r2 => ∀ t1 t2 : Int,
      r1.total_score = .integer t1 → r2.total_score = .integer t2 → t1 ≥ t2) := by
  have hsorted : (computeResults E s).Pairwise
      (fun r1 r2 => r1.total_score ≥ r2.total_score) := by
    unfold computeResults rankRows
    rw [List.pairwise_map]
    haveI : IsTotal RankRow (fun a b => a.total_score ≥ b.total_score) :=
      ⟨fun a b => Number.le_total b.total_score a.total_score⟩
    haveI : IsTrans RankRow (fun a b => a.total_score ≥ b.total_score) :=
      ⟨fun a b c hab hbc => Number.le_trans _ _ _ hbc hab⟩
    exact List.sorted_insertionSort (fun a b : RankRow => a.total_score ≥ b.total_score) _
  refine ⟨hsorted, fun i h => ?_, computeResults_perm_grouped E s, ?_⟩
  · exact (List.pairwise_iff_getElem.mp hsorted) i (i + 1) (by omega) h (by omega)
  · refine hsorted.imp ?_
    intro r1 r2 h t1 t2 h1 h2
    have h' : r2.total_score ≤ r1.total_score := h
    rw [h1, h2] at h'
    exact (Number.le_integer t2 t1).mp h'

theorem countP_id_players (players : List Player) (hpk : (players.map (·.id)).Nodup)
    (p : Player) (hp : p ∈ players) :
    players.countP (fun q => decide (q.id = p.id)) = 1 := by
  induction players with
  | nil => simp at hp
  | cons q qs ih =>
    rw [List.map_cons, List.nodup_cons] at hpk
    rw [List.countP_cons]
    rcases List.mem_cons.mp hp with h | h
    · subst h
      have : qs.countP (fun q => decide (q.id = p.id)) = 0 := by
        rw [List.countP_eq_zero]
        intro q hq
        simp only [decide_eq_true_eq]
        intro heq
        exact hpk.1 (heq ▸ List.mem_map_of_mem _ hq)
      simp [this]
    · have hne : q.id ≠ p.id := fun heq => hpk.1 (heq ▸ List.mem_map_of_mem _ h)
      simp [ih hpk.2 h, hne]

theorem contractRecord_average (s : Store) (p : Player) :
    ((contractRecord E s p).judge_count = 0 →
      (contractRecord E s p).final_average_score = .number 0) ∧
    (0 < (contractRecord E s p).judge_count →
      (contractRecord E s p).final_average_score =
        .string (averageText E (contractRecord E s p).total_score
          (contractRecord E s p).judge_count)) := by
  unfold contractRecord
  simp only
  constructor
  · intro h; simp [h]
  · intro h; simp [h]

/-- C5: with distinct contestant ids (the primary key), `computeResults`
returns the per-contestant records of the contract, up to order, one record
for every contestant.  The record of a contestant holds the number of distinct
judge ids among its score rows and, when its score values are integers, their
sum.  The average is the number 0 when no judge scored; else, for an integer
total below 2^52 / 100 in size, it is a text of digits with two decimals that
reads as a nearest hundredth of total / judges, with a minus sign for a
negative total.  A contestant without scores gets `(0, 0, 0)`, and the
contestant scored 8, 9 by one judge and 7, 10 by another gets
`(2, 34, "17.00")`. -/
theorem computeResults_records (s : Store) (hpk : (s.players.map (·.id)).Nodup) :
    (computeResults E s).Perm (s.players.map (contractRecord E s)) ∧
    (∀ p ∈ s.players, (computeResults E s).countP (fun r => decide (r.id = p.id)) = 1) ∧
    (∀ p ∈ s.players, ∃ r ∈ computeResults E s,
      r.id = p.id ∧ r.name = p.name ∧ r.info = p.info ∧
      r.judge_count =
        (((s.scores.filter (fun x => decide (x.player_id = some p.id))).filterMap
          (·.judge_id)).dedup).length ∧
      ∀ ns : List Int,
        (s.scores.filter (fun x => decide (x.player_id = some p.id))).map (·.score) =
          ns.map SqlValue.integer →
        r.total_score = .integer ns.sum) ∧
    (∀ r ∈ computeResults E s, r.judge_count = 0 → r.final_average_score = .number 0) ∧
    (∀ r ∈ computeResults E s, ∀ t : Int, r.total_score = .integer t →
      0 < r.judge_count → r.judge_count < 2 ^ 53 → 100 * t.natAbs < 2 ^ 52 →
      ∃ (n : Nat) (digits : String),
        r.final_average_score = .string ((if t < 0 then "-" else "") ++ digits) ∧
        hundredthsOf digits = some n ∧
        2 * (n * r.judge_count) ≤ 200 * t.natAbs + r.judge_count ∧
        200 * t.natAbs ≤ 2 * (n * r.judge_count) + r.judge_count) ∧
    (∀ p ∈ s.players, (∀ r ∈ s.scores, r.player_id ≠ some p.id) →
      { id := p.id, name := p.name, info := p.info, judge_count := 0,
        total_score := .integer 0, final_average_score := .number 0 } ∈ computeResults E s) ∧
    (∀ p ∈ s.players, ∀ j1 j2 : String, j1 ≠ j2 →
      (s.scores.filter (fun r => decide (r.player_id = some p.id))).map
          (fun r => (r.judge_id, r.score)) =
        [(some j1, .integer 8), (some j1, .integer 9), (some j2, .integer 7),
         (some j2, .integer 10)] →
      { id := p.id, name := p.name, info := p.info, judge_count := 2,
        total_score := .integer 34, final_average_score := .string "17.00" }
        ∈ computeResults E s) := by
  have hperm := computeResults_perm_contract E s hpk
  have hmem : ∀ r ∈ computeResults E s, ∃ p ∈ s.players, r = contractRecord E s p := by
    intro r hr
    obtain ⟨p, hp, rfl⟩ := List.mem_map.mp (hperm.mem_iff.mp hr)
    exact ⟨p, hp, rfl⟩
  refine ⟨hperm, ?_, ?_, ?_, ?_, ?_, ?_⟩
  · intro p hp
    rw [hperm.countP_eq, List.countP_map]
    exact countP_id_players s.players hpk p hp
  · intro p hp
    refine ⟨contractRecord E s p, hperm.mem_iff.mpr (List.mem_map_of_mem _ hp),
      rfl, rfl, rfl, rfl, ?_⟩
    intro ns hns
    show contractTotal E _ = _
    rw [hns]
    exact contractTotal_integers E ns
  · intro r hr h0
    obtain ⟨p, _, rfl⟩ := hmem r hr
    exact (contractRecord_average E s p).1 h0
  · intro r hr t ht hpos hbig hsmall
    obtain ⟨p, _, rfl⟩ := hmem r hr
    refine ⟨fixedHundredths (divDouble t.natAbs (contractRecord E s p).judge_count),
      hundredthsText (fixedHundredths (divDouble t.natAbs (contractRecord E s p).judge_count)),
      ?_, hundredthsOf_hundredthsText _, ?_⟩
    · rw [(contractRecord_average E s p).2 hpos, ht]; rfl
    · exact hundredths_nearest _ _ hpos hbig hsmall
  · intro p hp hnone
    apply hperm.mem_iff.mpr
    refine List.mem_map.mpr ⟨p, hp, ?_⟩
    have : s.scores.filter (fun r => decide (r.player_id = some p.id)) = [] := by
      rw [List.filter_eq_nil_iff]
      intro r hr
      simpa using hnone r hr
    unfold contractRecord
    simp [this, contractTotal, integerValues]
  · intro p hp j1 j2 hne hrows
    apply hperm.mem_iff.mpr
    refine List.mem_map.mpr ⟨p, hp, ?_⟩
    have hj : (s.scores.filter (fun r => decide (r.player_id = some p.id))).filterMap
        (·.judge_id) = [j1, j1, j2, j2] := by
      have := congrArg (List.filterMap Prod.fst) hrows
      rw [List.filterMap_map] at this
      simpa using this
    have hv : (s.scores.filter (fun r => decide (r.player_id = some p.id))).map
        (·.score) = [(8 : Int), 9, 7, 10].map SqlValue.integer := by
      have := congrArg (List.map Prod.snd) hrows
      rw [List.map_map] at this
      simpa using this
    have hd : [j1, j1, j2, j2].dedup = [j1, j2] := by
      simp [List.dedup_cons_of_mem, List.dedup_cons_of_not_mem, hne]
    have hfix : toFixed2 34 2 = "17.00" := by decide
    unfold contractRecord
    simp only [hj, hv, hd, contractTotal_integers]
    simp [averageText, hfix]

/-- C5 on the sample scoreboard: contestant A has the record `(2, 34, "17.00")`. -/
theorem computeResults_records_witness :
    ({ id := 1, name := "A", info := none, judge_count := 2, total_score := .integer 34,
       final_average_score := .string "17.00" } : ResultRecord)
      ∈ computeResults plainEngine scoreboard :=
  (computeResults_records plainEngine scoreboard (by decide)).2.2.2.2.2.2
    { id := 1, name := "A", info := none } (by decide) "judge1" "judge2" (by decide)
    (by decide)

/-! ## Rubric import -/

theorem textCell_of_truthy (v : JsValue) (h : v.truthy = true) :
    ∃ n, textCell E (bindParam v) = some n := by
  cases v <;> simp_all [JsValue.truthy, bindParam, textCell, SqlValue.textAffinity]

theorem cacheAgrees_mono (cache : GroupCache) (s t : Store)
    (hsub : ∀ x ∈ s.scoring_sets, x ∈ t.scoring_sets) (h : cacheAgrees E cache s) :
    cacheAgrees E cache t := by
  intro v id hl
  obtain ⟨set, hset, h1, h2⟩ := h v id hl
  exact ⟨set, hsub set hset, h1, h2⟩

theorem cacheAgrees_cons (cache : GroupCache) (s : Store) (v : JsValue) (id : Int)
    (set : ScoringSet) (hset : set ∈ s.scoring_sets) (hid : set.id = id)
    (hname : textCell E (bindParam v) = some set.name) (h : cacheAgrees E cache s) :
    cacheAgrees E ((v, id) :: cache) s := by
  intro w id2 hl
  rw [List.lookup_cons] at hl
  by_cases hw : w = v
  · subst hw
    simp only [beq_self_eq_true] at hl
    cases hl
    exact ⟨set, hset, hid, hname⟩
  · have : (w == v) = false := by simpa using hw
    rw [this] at hl
    exact h w id2 hl

theorem getOrCreateSetId_spec (cache : GroupCache) (s : Store) (v : JsValue)
    (hv : v.truthy = true) (hc : cacheAgrees E cache s)
    (hn : (s.scoring_sets.map (·.name)).Nodup) (hi : (s.scoring_sets.map (·.id)).Nodup) :
    ∃ id cache1 s1 new, getOrCreateSetId E cache s v = some (id, cache1, s1) ∧
      s1.scoring_sets = s.scoring_sets ++ new ∧
      s1.scoring_items = s.scoring_items ∧ s1.items_seq = s.items_seq ∧
      cacheAgrees E cache1 s1 ∧
      (s1.scoring_sets.map (·.name)).Nodup ∧ (s1.scoring_sets.map (·.id)).Nodup ∧
      (∃ set ∈ s1.scoring_sets, set.id = id ∧ textCell E (bindParam v) = some set.name) ∧
      (∀ set ∈ new, set.name ∉ s.scoring_sets.map (·.name) ∧
        textCell E (bindParam v) = some set.name) := by
  unfold getOrCreateSetId
  cases hl : cache.lookup v with
  | some id =>
    exact ⟨id, cache, s, [], rfl, by simp, rfl, rfl, hc, hn, hi, hc v id hl, by simp⟩
  | none =>
    simp only
    cases hsel : selectSetId E s (bindParam v) with
    | some id =>
      unfold selectSetId at hsel
      obtain ⟨set, hfind, hid⟩ := Option.map_eq_some'.mp hsel
      have hmem := List.mem_of_find?_eq_some hfind
      have hp : eqText E (some set.name) (bindParam v) = true := by
        simpa using List.find?_some hfind
      have hname := (eqText_iff E _ _).mp hp
      exact ⟨id, (v, id) :: cache, s, [], rfl, by simp, rfl, rfl,
        cacheAgrees_cons E cache s v id set hmem hid hname hc, hn, hi,
        ⟨set, hmem, hid, hname⟩, by simp⟩
    | none =>
      simp only
      obtain ⟨n, hcell⟩ := textCell_of_truthy E v hv
      have hfresh : n ∉ s.scoring_sets.map (·.name) := by
        intro hmem
        obtain ⟨set, hset, hsn⟩ := List.mem_map.mp hmem
        unfold selectSetId at hsel
        have hnone := Option.map_eq_none'.mp hsel
        rw [List.find?_eq_none] at hnone
        have := hnone set hset
        rw [eqText_iff E, hsn] at this
        exact this hcell
      have hins : insertSet E s (bindParam v) =
          some ({ s with
            scoring_sets := s.scoring_sets ++
              [{ id := nextRowid s.sets_seq (s.scoring_sets.map (·.id)), name := n }],
            sets_seq := nextRowid s.sets_seq (s.scoring_sets.map (·.id)) },
            nextRowid s.sets_seq (s.scoring_sets.map (·.id))) := by
        unfold insertSet
        rw [hcell]
        simp only [hfresh, if_false]
      rw [hins]
      simp only
      have hnew : (⟨nextRowid s.sets_seq (s.scoring_sets.map (·.id)), n⟩ : ScoringSet) ∈
          s.scoring_sets ++
            [(⟨nextRowid s.sets_seq (s.scoring_sets.map (·.id)), n⟩ : ScoringSet)] := by
        simp
      refine ⟨_, _, _, [⟨nextRowid s.sets_seq (s.scoring_sets.map (·.id)), n⟩], rfl, rfl,
        rfl, rfl, ?_, ?_, ?_, ⟨_, hnew, rfl, hcell⟩, ?_⟩
      · exact cacheAgrees_cons E cache _ v _
          ⟨nextRowid s.sets_seq (s.scoring_sets.map (·.id)), n⟩ hnew rfl hcell
          (cacheAgrees_mono E cache s _ (fun x hx => List.mem_append_left _ hx) hc)
      · simp only [List.map_append, List.map_cons, List.map_nil]
        exact List.Nodup.append hn (List.nodup_singleton _)
          (by simpa [List.disjoint_singleton] using hfresh)
      · simp only [List.map_append, List.map_cons, List.map_nil]
        refine List.Nodup.append hi (List.nodup_singleton _) ?_
        simp only [List.disjoint_singleton]
        intro hmem
        exact lt_irrefl _ (mem_lt_nextRowid _ _ _ hmem)
      · intro set hset
        simp only [List.mem_singleton] at hset
        subst hset
        exact ⟨hfresh, hcell⟩

theorem insertScoringItem_spec (s : Store) (row : ImportRow) (id : Int)
    (hname : row.itemName.truthy = true) (hid : id ∈ s.scoring_sets.map (·.id)) :
    ∃ item s2,
      insertScoringItem E s (bindParam row.itemName)
        (bindParam (row.description.orElse (.string ""))) (bindParam row.maxScore)
        (.integer id) = some s2 ∧
      s2.scoring_sets = s.scoring_sets ∧ s2.scoring_items = s.scoring_items ++ [item] ∧
      textCell E (bindParam row.itemName) = some item.name ∧
      item.description = textCell E (bindParam (row.description.orElse (.string ""))) ∧
      item.max_score = (bindParam row.maxScore).integerAffinity E ∧
      item.set_id = id := by
  obtain ⟨n, hn⟩ := textCell_of_truthy E row.itemName hname
  unfold insertScoringItem
  rw [hn]
  simp only [SqlValue.integerAffinity, hid, if_true]
  exact ⟨_, _, rfl, rfl, rfl, rfl, rfl, rfl, rfl⟩

theorem importRow_complete (cache : GroupCache) (s : Store) (row : ImportRow)
    (hrow : row.complete = true) (hc : cacheAgrees E cache s)
    (hn : (s.scoring_sets.map (·.name)).Nodup) (hi : (s.scoring_sets.map (·.id)).Nodup) :
    ∃ cache1 s1 new item, importRow E (cache, s) row = some (cache1, s1) ∧
      s1.scoring_sets = s.scoring_sets ++ new ∧
      s1.scoring_items = s.scoring_items ++ [item] ∧
      cacheAgrees E cache1 s1 ∧
      (s1.scoring_sets.map (·.name)).Nodup ∧ (s1.scoring_sets.map (·.id)).Nodup ∧
      itemOfRow E s1.scoring_sets row item ∧
      (∀ set ∈ new, set.name ∉ s.scoring_sets.map (·.name) ∧
        textCell E (bindParam row.setName) = some set.name) := by
  have hparts : row.setName.truthy = true ∧ row.itemName.truthy = true ∧
      row.maxScore.truthy = true := by
    simpa [ImportRow.complete, and_assoc] using hrow
  obtain ⟨id, cache1, s1, new, hget, hsets, hitems, _, hc1, hn1, hi1, ⟨set, hset, hsid, hsname⟩, hnew⟩ :=
    getOrCreateSetId_spec E cache s row.setName hparts.1 hc hn hi
  have hidmem : id ∈ s1.scoring_sets.map (·.id) := List.mem_map.mpr ⟨set, hset, hsid⟩
  obtain ⟨item, s2, hins, h2sets, h2items, hiname, hidesc, himax, hiset⟩ :=
    insertScoringItem_spec E s1 row id hparts.2.1 hidmem
  refine ⟨cache1, s2, new, item, ?_, ?_, ?_, ?_, ?_, ?_, ?_, hnew⟩
  · unfold importRow
    simp only [hrow, if_true, hget, hins]
  · rw [h2sets, hsets]
  · rw [h2items, hitems]
  · exact cacheAgrees_mono E cache1 s1 s2 (fun x hx => by rw [h2sets]; exact hx) hc1
  · rw [h2sets]; exact hn1
  · rw [h2sets]; exact hi1
  · refine ⟨hiname, hidesc, himax, set, ?_, hsname, ?_⟩
    · rw [h2sets]; exact hset
    · rw [hiset, hsid]

theorem itemOfRow_mono (sets more : List ScoringSet) (row : ImportRow) (item : ScoringItem)
    (h : itemOfRow E sets row item) : itemOfRow E (sets ++ more) row item := by
  obtain ⟨h1, h2, h3, set, hset, h4, h5⟩ := h
  exact ⟨h1, h2, h3, set, List.mem_append_left _ hset, h4, h5⟩

theorem importRows_spec (rows : List ImportRow) : ∀ (cache : GroupCache) (s : Store),
    cacheAgrees E cache s → (s.scoring_sets.map (·.name)).Nodup →
    (s.scoring_sets.map (·.id)).Nodup →
    ∃ cache1 s1 sets items, importRows E (cache, s) rows = some (cache1, s1) ∧
      s1.scoring_sets = s.scoring_sets ++ sets ∧
      s1.scoring_items = s.scoring_items ++ items ∧
      (s1.scoring_sets.map (·.name)).Nodup ∧ (s1.scoring_sets.map (·.id)).Nodup ∧
      List.Forall₂ (itemOfRow E s1.scoring_sets) (rows.filter (·.complete)) items ∧
      (∀ set ∈ sets, set.name ∉ s.scoring_sets.map (·.name) ∧
        ∃ row ∈ rows, row.complete = true ∧
          textCell E (bindParam row.setName) = some set.name) := by
  induction rows with
  | nil =>
    intro cache s _ hn hi
    exact ⟨cache, s, [], [], rfl, by simp, by simp, hn, hi, by simp, by simp⟩
  | cons row rest ih =>
    intro cache s hc hn hi
    by_cases hrow : row.complete = true
    · obtain ⟨cache1, s1, new, item, hstep, hsets, hitems, hc1, hn1, hi1, hitem, hnew⟩ :=
        importRow_complete E cache s row hrow hc hn hi
      obtain ⟨cache2, s2, sets, items, hrest, h2sets, h2items, hn2, hi2, hall, hcreated⟩ :=
        ih cache1 s1 hc1 hn1 hi1
      refine ⟨cache2, s2, new ++ sets, item :: items, ?_, ?_, ?_, hn2, hi2, ?_, ?_⟩
      · simp only [importRows, hstep, hrest]
      · rw [h2sets, hsets, List.append_assoc]
      · rw [h2items, hitems, List.append_assoc]; rfl
      · rw [List.filter_cons_of_pos hrow]
        refine List.Forall₂.cons ?_ hall
        rw [h2sets]
        exact itemOfRow_mono E _ _ _ _ hitem
      · intro set hset
        rcases List.mem_append.mp hset with h | h
        · exact ⟨(hnew set h).1, row, List.mem_cons_self _ _, hrow, (hnew set h).2⟩
        · obtain ⟨hfresh, r, hr, hrc, hrn⟩ := hcreated set h
          refine ⟨fun hmem => hfresh ?_, r, List.mem_cons_of_mem _ hr, hrc, hrn⟩
          rw [hsets, List.map_append]
          exact List.mem_append_left _ hmem
    · have hstep : importRow E (cache, s) row = some (cache, s) := by
        unfold importRow
        simp only [hrow]
        rfl
      obtain ⟨cache2, s2, sets, items, hrest, h2sets, h2items, hn2, hi2, hall, hcreated⟩ :=
        ih cache s hc hn hi
      refine ⟨cache2, s2, sets, items, ?_, h2sets, h2items, hn2, hi2, ?_, ?_⟩
      · simp only [importRows, hstep, hrest]
      · rw [List.filter_cons_of_neg hrow]; exact hall
      · intro set hset
        obtain ⟨hfresh, r, hr, hrc, hrn⟩ := hcreated set hset
        exact ⟨hfresh, r, List.mem_cons_of_mem _ hr, hrc, hrn⟩

theorem countP_name_sets (sets : List ScoringSet) (hn : (sets.map (·.name)).Nodup)
    (x : ScoringSet) (hx : x ∈ sets) :
    sets.countP (fun y => decide (y.name = x.name)) = 1 := by
  induction sets with
  | nil => simp at hx
  | cons q qs ih =>
    rw [List.map_cons, List.nodup_cons] at hn
    rw [List.countP_cons]
    rcases List.mem_cons.mp hx with h | h
    · subst h
      have : qs.countP (fun y => decide (y.name = x.name)) = 0 := by
        rw [List.countP_eq_zero]
        intro y hy
        simp only [decide_eq_true_eq]
        intro heq
        exact hn.1 (heq ▸ List.mem_map_of_mem _ hy)
      simp [this]
    · have hne : q.name ≠ x.name := fun heq => hn.1 (heq ▸ List.mem_map_of_mem _ h)
      simp [ih hn.2 h, hne]

theorem forall₂_exists_right {α β : Type} (R : α → β → Prop) (l1 : List α) (l2 : List β)
    (h : List.Forall₂ R l1 l2) : ∀ a ∈ l1, ∃ b ∈ l2, R a b := by
  induction h with
  | nil => intro a ha; simp at ha
  | cons hab _ ih =>
    intro a ha
    rcases List.mem_cons.mp ha with rfl | h
    · exact ⟨_, List.mem_cons_self _ _, hab⟩
    · obtain ⟨b, hb, hr⟩ := ih a h
      exact ⟨b, List.mem_cons_of_mem _ hb, hr⟩

/-- C7: on a store whose rubric sets have distinct names and ids, the import
succeeds and appends sets and items such that: set names and ids stay
distinct, so the set name of every complete row (set name, item name and
maximum all truthy) names exactly one set; a set is created only for a name
that no earlier set carried and that a complete row gives; and the appended
items are, in order, one item per complete row, each under the set carrying
the name of its row.  Incomplete rows add nothing.  The two `Round1` rows on
the empty store give one set `Round1` and the two items under it. -/
theorem importRubricSets_resolves (d : Db) (rows : List ImportRow)
    (hn : (d.store.scoring_sets.map (·.name)).Nodup)
    (hi : (d.store.scoring_sets.map (·.id)).Nodup) :
    (∃ sets items,
      (importRubricSets E d rows true).1 = .created ∧
      (importRubricSets E d rows true).2.store.scoring_sets = d.store.scoring_sets ++ sets ∧
      (importRubricSets E d rows true).2.store.scoring_items = d.store.scoring_items ++ items ∧
      ((d.store.scoring_sets ++ sets).map (·.name)).Nodup ∧
      ((d.store.scoring_sets ++ sets).map (·.id)).Nodup ∧
      (∀ row ∈ rows, row.complete = true →
        ∃ n, textCell E (bindParam row.setName) = some n ∧
          (d.store.scoring_sets ++ sets).countP (fun x => decide (x.name = n)) = 1) ∧
      (∀ set ∈ sets, set.name ∉ d.store.scoring_sets.map (·.name) ∧
        ∃ row ∈ rows, row.complete = true ∧
          textCell E (bindParam row.setName) = some set.name) ∧
      List.Forall₂ (itemOfRow E (d.store.scoring_sets ++ sets))
        (rows.filter (·.complete)) items) ∧
    ((importRubricSets E ⟨emptyStore, none⟩ round1Rows true).2.store.scoring_sets =
        [{ id := 1, name := "Round1" }] ∧
      (importRubricSets E ⟨emptyStore, none⟩ round1Rows true).2.store.scoring_items =
        [{ id := 1, name := "Style", description := some "", max_score := .integer 10,
           set_id := 1 },
         { id := 2, name := "Technique", description := some "", max_score := .integer 10,
           set_id := 1 }]) := by
  refine ⟨?_, rfl, rfl⟩
  obtain ⟨cache1, s1, sets, items, hrun, hsets, hitems, hn1, hi1, hall, hcreated⟩ :=
    importRows_spec E rows [] d.store (fun v id h => by simp at h) hn hi
  have hrun2 : importRows E ([], d.begin.store) rows = some (cache1, s1) := by
    rw [begin_store]; exact hrun
  refine ⟨sets, items, ?_, ?_, ?_, ?_, ?_, ?_, hcreated, ?_⟩
  · unfold importRubricSets; simp only [hrun2]
  · unfold importRubricSets; simp only [hrun2, Db.commit]; exact hsets
  · unfold importRubricSets; simp only [hrun2, Db.commit]; exact hitems
  · rw [← hsets]; exact hn1
  · rw [← hsets]; exact hi1
  · intro row hrow hcomplete
    have hmem : row ∈ rows.filter (·.complete) := List.mem_filter.mpr ⟨hrow, hcomplete⟩
    obtain ⟨item, _, _, _, _, set, hset, hname, _⟩ :=
      forall₂_exists_right _ _ _ hall row hmem
    refine ⟨set.name, hname, ?_⟩
    rw [← hsets]
    exact countP_name_sets s1.scoring_sets hn1 set hset
  · rw [← hsets]; exact hall

/-- C7 on a store that already has the set `Round1`: it is reused. -/
theorem importRubricSets_resolves_witness :
    ∃ sets items,
      (importRubricSets plainEngine ⟨sampleStore, none⟩ round1Rows true).1 = .created ∧
      (importRubricSets plainEngine ⟨sampleStore, none⟩ round1Rows true).2.store.scoring_sets =
        sampleStore.scoring_sets ++ sets ∧
      (importRubricSets plainEngine ⟨sampleStore, none⟩ round1Rows true).2.store.scoring_items =
        sampleStore.scoring_items ++ items ∧
      ((sampleStore.scoring_sets ++ sets).map (·.name)).Nodup ∧
      ((sampleStore.scoring_sets ++ sets).map (·.id)).Nodup ∧
      (∀ row ∈ round1Rows, row.complete = true →
        ∃ n, textCell plainEngine (bindParam row.setName) = some n ∧
          (sampleStore.scoring_sets ++ sets).countP (fun x => decide (x.name = n)) = 1) ∧
      (∀ set ∈ sets, set.name ∉ sampleStore.scoring_sets.map (·.name) ∧
        ∃ row ∈ round1Rows, row.complete = true ∧
          textCell plainEngine (bindParam row.setName) = some set.name) ∧
      List.Forall₂ (itemOfRow plainEngine (sampleStore.scoring_sets ++ sets))
        (round1Rows.filter (·.complete)) items :=
  (importRubricSets_resolves plainEngine ⟨sampleStore, none⟩ round1Rows (by decide) (by decide)).1

end ScoringSystem
